import Mathlib

/-!
Verification of the object-dependency engine in
`src/src/backend/catalog/dependency.c`.

The file shallowly embeds the data model (ObjectAddress, pg_depend rows),
the AddressSet operations (`object_address_present`,
`eliminate_duplicate_dependencies`, `object_address_comparator`), the class
dispatch (`getObjectClass`, `doDeletion`) and the recursive deletion state
machine (`findAutoDeletableObjects`, `recursiveDeletion`,
`deleteDependentObjects`, `performDeletion`, `performMultipleDeletions`).

Modelling conventions:
* Catalog OIDs are `Nat` (C `Oid` is an unsigned 32-bit integer; the engine
  only compares them for equality/order, so `Nat` is adequate).
* `objectSubId` is `Int` (C `int32`); orderings cast it to unsigned exactly
  where the C code does, via `uint32`.
* The persistent `pg_depend` table is a list of rows carried in an explicit
  state.  Each row has a tuple identity `eid` (standing for its ctid); a
  catalog scan materialises the matching rows at scan start and, like the
  SnapshotNow scans of the C code after `CommandCounterIncrement`, skips a
  row that a nested recursion has meanwhile deleted (the liveness check).
* `ereport(ERROR, ...)`/`elog(ERROR, ...)` abort the transaction; they are
  modelled with `Except`.  `ereport` at NOTICE/DEBUG severity only emits a
  message; those are accumulated as `Report` values.  The message severity
  juggling on `Gp_role` changes only the level, never the message or the
  control flow, so severities are not tracked.
* `getObjectDescription` only renders strings for messages; errors and
  reports carry the `ObjectAddress` itself instead.
* Recursion is made total with an explicit fuel argument; `.fuelOut` is the
  exhaustion marker.  `CommandCounterIncrement` is the visibility barrier
  that makes earlier deletions observable; in this embedding deletions are
  immediately visible, so the barrier is a no-op.
-/

-- Decidable equality of `Except` results, for evaluating the engine on
-- concrete inputs.
deriving instance DecidableEq for Except

/-- DependencyType: the deptype tags of pg_depend rows
(DEPENDENCY_NORMAL 'n', DEPENDENCY_AUTO 'a', DEPENDENCY_INTERNAL 'i',
DEPENDENCY_PIN 'p'). -/
inductive DependencyType where
  | normal
  | auto
  | internal
  | pin
deriving DecidableEq, Repr

/-- DropBehavior: RESTRICT or CASCADE. -/
inductive DropBehavior where
  | restrict
  | cascade
deriving DecidableEq, Repr

/-- Message severities threaded as `msglevel`.  Only the level of the
cascade notices depends on it, never their content, so the engine model
carries it without consulting it. -/
inductive MsgLevel where
  | debug2
  | debug1
  | notice
deriving DecidableEq, Repr

/-- ObjectAddress: the identity triple (classId, objectId, objectSubId).
`objectSubId` is an `int32` in C; `objectSubId = 0` denotes the whole
object. -/
structure ObjectAddress where
  classId : Nat
  objectId : Nat
  objectSubId : Int
deriving DecidableEq, Repr

/-- One pg_depend row: dependent triple, referenced triple and kind.
`eid` models the tuple identity (its ctid): scans recognise a previously
yielded row by it and `caql_delete_current` removes exactly it. -/
structure PgDependRow where
  eid : Nat
  dep : ObjectAddress
  ref : ObjectAddress
  deptype : DependencyType
deriving DecidableEq, Repr

/-- The body of the `object_address_present` loop for one array entry:
classId and objectId must match exactly, subId matches exactly or the
stored entry is a whole-object entry (subId 0). -/
def addressMatches (object thisobj : ObjectAddress) : Bool :=
  object.classId == thisobj.classId && object.objectId == thisobj.objectId &&
    (object.objectSubId == thisobj.objectSubId || thisobj.objectSubId == 0)

/-- object_address_present: membership test over an ObjectAddresses array
(modelled as a list; the C loop scans backwards, which is irrelevant for
the boolean outcome). -/
def object_address_present (object : ObjectAddress) (addrs : List ObjectAddress) : Bool :=
  addrs.any (addressMatches object)

/-- add_exact_object_address: append the entry exactly (array growth is a
memory-management detail with no observable effect). -/
def add_exact_object_address (object : ObjectAddress) (addrs : List ObjectAddress) :
    List ObjectAddress :=
  addrs ++ [object]

/-- Cast of a C `int32` value to `unsigned int`, as done by
`object_address_comparator` on objectSubId. -/
def uint32 (i : Int) : Nat :=
  (i % 4294967296).toNat

/-- object_address_comparator: qsort comparator ordering by classId,
objectId, then objectSubId compared as unsigned so that 0 comes first. -/
def object_address_comparator (a b : ObjectAddress) : Int :=
  if a.classId < b.classId then -1
  else if b.classId < a.classId then 1
  else if a.objectId < b.objectId then -1
  else if b.objectId < a.objectId then 1
  else if uint32 a.objectSubId < uint32 b.objectSubId then -1
  else if uint32 b.objectSubId < uint32 a.objectSubId then 1
  else 0

/-- The total preorder induced by `object_address_comparator`, used to state
what qsort produces. -/
def addrLe (a b : ObjectAddress) : Prop :=
  object_address_comparator a b ≤ 0

instance : DecidableRel addrLe := fun a b => by
  unfold addrLe; infer_instance

/-- Arithmetic characterisation of the comparator's order. -/
theorem addrLe_iff (a b : ObjectAddress) :
    addrLe a b ↔
      a.classId < b.classId ∨
        (a.classId = b.classId ∧
          (a.objectId < b.objectId ∨
            (a.objectId = b.objectId ∧ uint32 a.objectSubId ≤ uint32 b.objectSubId))) := by
  unfold addrLe object_address_comparator
  split_ifs <;> omega

instance : IsTotal ObjectAddress addrLe :=
  ⟨by intro a b; rw [addrLe_iff, addrLe_iff]; omega⟩

instance : IsTrans ObjectAddress addrLe :=
  ⟨by intro a b c hab hbc; rw [addrLe_iff] at *; omega⟩

/-- The qsort call of `eliminate_duplicate_dependencies`.  The comparator
returns 0 only on entries whose three key components are equal, so every
qsort result coincides with the insertion sort (ties are between equal
keys). -/
def sortObjectAddresses (l : List ObjectAddress) : List ObjectAddress :=
  List.insertionSort addrLe l

/-- The duplicate-removal walk of `eliminate_duplicate_dependencies` over
the sorted array: `prior` plays the role of `*priorobj`.  An entry equal to
`prior` is dropped; a partial entry following a whole-object `prior` with
the same (classId, objectId) overwrites `prior`'s subId; anything else
emits `prior` and becomes the new `prior`. -/
def dedupFold : ObjectAddress → List ObjectAddress → List ObjectAddress
  | prior, [] => [prior]
  | prior, thisobj :: rest =>
    if prior.classId = thisobj.classId ∧ prior.objectId = thisobj.objectId then
      if prior.objectSubId = thisobj.objectSubId then
        dedupFold prior rest
      else if prior.objectSubId = 0 then
        dedupFold { prior with objectSubId := thisobj.objectSubId } rest
      else
        prior :: dedupFold thisobj rest
    else
      prior :: dedupFold thisobj rest

/-- eliminate_duplicate_dependencies: sort, then remove duplicates and
absorb whole-object entries into following partial entries. -/
def eliminate_duplicate_dependencies (addrs : List ObjectAddress) : List ObjectAddress :=
  if addrs.length ≤ 1 then addrs
  else
    match sortObjectAddresses addrs with
    | [] => []
    | h :: t => dedupFold h t

example : eliminate_duplicate_dependencies
    [⟨1, 5, 0⟩, ⟨1, 4, 2⟩, ⟨1, 5, 3⟩, ⟨1, 4, 2⟩] = [⟨1, 4, 2⟩, ⟨1, 5, 3⟩] := by
  decide

example : object_address_present ⟨1, 2, 3⟩ [⟨1, 2, 0⟩] = true := by decide

example : object_address_present ⟨1, 2, 0⟩ [⟨1, 2, 3⟩] = false := by decide

/-- ObjectClass: the closed enumeration of catalog classes the engine
dispatches over (dependency.h), in the order of the `object_classes`
table. -/
inductive ObjectClass where
  | OCLASS_CLASS
  | OCLASS_PROC
  | OCLASS_TYPE
  | OCLASS_CAST
  | OCLASS_CONSTRAINT
  | OCLASS_CONVERSION
  | OCLASS_DEFAULT
  | OCLASS_LANGUAGE
  | OCLASS_OPERATOR
  | OCLASS_OPCLASS
  | OCLASS_REWRITE
  | OCLASS_TRIGGER
  | OCLASS_SCHEMA
  | OCLASS_ROLE
  | OCLASS_DATABASE
  | OCLASS_TBLSPACE
  | OCLASS_FILESPACE
  | OCLASS_FILESYSTEM
  | OCLASS_FDW
  | OCLASS_FOREIGN_SERVER
  | OCLASS_USER_MAPPING
  | OCLASS_EXTPROTOCOL
  | OCLASS_COMPRESSION
deriving DecidableEq, Repr

/-- Modelled from the spec: the catalog relation OIDs come from the
`catalog/pg_*.h` headers, which are not part of the provided source tree;
the engine relies only on the constants being pairwise distinct (the
ClassRegistry bijection of the spec).  Values follow the standard
PostgreSQL/Greenplum catalog numbering. -/
def RelationRelationId : Nat := 1259

/-- Modelled from the spec: pg_proc's OID (see `RelationRelationId`). -/
def ProcedureRelationId : Nat := 1255

/-- Modelled from the spec: pg_type's OID. -/
def TypeRelationId : Nat := 1247

/-- Modelled from the spec: pg_cast's OID. -/
def CastRelationId : Nat := 2605

/-- Modelled from the spec: pg_constraint's OID. -/
def ConstraintRelationId : Nat := 2606

/-- Modelled from the spec: pg_conversion's OID. -/
def ConversionRelationId : Nat := 2607

/-- Modelled from the spec: pg_attrdef's OID. -/
def AttrDefaultRelationId : Nat := 2604

/-- Modelled from the spec: pg_language's OID. -/
def LanguageRelationId : Nat := 2612

/-- Modelled from the spec: pg_operator's OID. -/
def OperatorRelationId : Nat := 2617

/-- Modelled from the spec: pg_opclass's OID. -/
def OperatorClassRelationId : Nat := 2616

/-- Modelled from the spec: pg_rewrite's OID. -/
def RewriteRelationId : Nat := 2618

/-- Modelled from the spec: pg_trigger's OID. -/
def TriggerRelationId : Nat := 2620

/-- Modelled from the spec: pg_namespace's OID. -/
def NamespaceRelationId : Nat := 2615

/-- Modelled from the spec: pg_authid's OID. -/
def AuthIdRelationId : Nat := 1260

/-- Modelled from the spec: pg_database's OID. -/
def DatabaseRelationId : Nat := 1262

/-- Modelled from the spec: pg_tablespace's OID. -/
def TableSpaceRelationId : Nat := 1213

/-- Modelled from the spec: pg_filespace's OID. -/
def FileSpaceRelationId : Nat := 5009

/-- Modelled from the spec: pg_filesystem's OID. -/
def FileSystemRelationId : Nat := 7076

/-- Modelled from the spec: pg_foreign_data_wrapper's OID. -/
def ForeignDataWrapperRelationId : Nat := 2328

/-- Modelled from the spec: pg_foreign_server's OID. -/
def ForeignServerRelationId : Nat := 1417

/-- Modelled from the spec: pg_user_mapping's OID. -/
def UserMappingRelationId : Nat := 1418

/-- Modelled from the spec: pg_extprotocol's OID. -/
def ExtprotocolRelationId : Nat := 7175

/-- Modelled from the spec: pg_compression's OID. -/
def CompressionRelationId : Nat := 7056

/-- The `object_classes` table: ObjectClass to catalog OID. -/
def object_classes : ObjectClass → Nat
  | .OCLASS_CLASS => RelationRelationId
  | .OCLASS_PROC => ProcedureRelationId
  | .OCLASS_TYPE => TypeRelationId
  | .OCLASS_CAST => CastRelationId
  | .OCLASS_CONSTRAINT => ConstraintRelationId
  | .OCLASS_CONVERSION => ConversionRelationId
  | .OCLASS_DEFAULT => AttrDefaultRelationId
  | .OCLASS_LANGUAGE => LanguageRelationId
  | .OCLASS_OPERATOR => OperatorRelationId
  | .OCLASS_OPCLASS => OperatorClassRelationId
  | .OCLASS_REWRITE => RewriteRelationId
  | .OCLASS_TRIGGER => TriggerRelationId
  | .OCLASS_SCHEMA => NamespaceRelationId
  | .OCLASS_ROLE => AuthIdRelationId
  | .OCLASS_DATABASE => DatabaseRelationId
  | .OCLASS_TBLSPACE => TableSpaceRelationId
  | .OCLASS_FILESPACE => FileSpaceRelationId
  | .OCLASS_FILESYSTEM => FileSystemRelationId
  | .OCLASS_FDW => ForeignDataWrapperRelationId
  | .OCLASS_FOREIGN_SERVER => ForeignServerRelationId
  | .OCLASS_USER_MAPPING => UserMappingRelationId
  | .OCLASS_EXTPROTOCOL => ExtprotocolRelationId
  | .OCLASS_COMPRESSION => CompressionRelationId

/-- The list of the 23 registered catalog class OIDs (the range of
`object_classes`). -/
def registeredClassIds : List Nat :=
  [RelationRelationId, ProcedureRelationId, TypeRelationId, CastRelationId,
   ConstraintRelationId, ConversionRelationId, AttrDefaultRelationId,
   LanguageRelationId, OperatorRelationId, OperatorClassRelationId,
   RewriteRelationId, TriggerRelationId, NamespaceRelationId,
   AuthIdRelationId, DatabaseRelationId, TableSpaceRelationId,
   FileSpaceRelationId, FileSystemRelationId, ForeignDataWrapperRelationId,
   ForeignServerRelationId, UserMappingRelationId, ExtprotocolRelationId,
   CompressionRelationId]

/-- Errors raised by the engine via `ereport(ERROR, ...)`/`elog(ERROR,
...)`, plus the fuel-exhaustion marker of the embedding. -/
inductive DropError where
  | fuelOut
  | requiredBySystem (obj : ObjectAddress)
  | requiresInstead (obj other : ObjectAddress)
  | stillExist (obj : ObjectAddress)
  | multipleInternal (obj : ObjectAddress)
  | pinMisuse (obj : ObjectAddress)
  | unrecognizedObjectClass (classId : Nat)
  | assertViolation (obj : ObjectAddress)
deriving DecidableEq, Repr

/-- The cases of the `getObjectClass` switch: each catalog relation OID
with the ObjectClass its case returns. -/
def getObjectClassCases : List (Nat × ObjectClass) :=
  [(RelationRelationId, .OCLASS_CLASS),
   (ProcedureRelationId, .OCLASS_PROC),
   (TypeRelationId, .OCLASS_TYPE),
   (CastRelationId, .OCLASS_CAST),
   (ConstraintRelationId, .OCLASS_CONSTRAINT),
   (ConversionRelationId, .OCLASS_CONVERSION),
   (AttrDefaultRelationId, .OCLASS_DEFAULT),
   (LanguageRelationId, .OCLASS_LANGUAGE),
   (OperatorRelationId, .OCLASS_OPERATOR),
   (OperatorClassRelationId, .OCLASS_OPCLASS),
   (RewriteRelationId, .OCLASS_REWRITE),
   (TriggerRelationId, .OCLASS_TRIGGER),
   (NamespaceRelationId, .OCLASS_SCHEMA),
   (AuthIdRelationId, .OCLASS_ROLE),
   (DatabaseRelationId, .OCLASS_DATABASE),
   (TableSpaceRelationId, .OCLASS_TBLSPACE),
   (FileSpaceRelationId, .OCLASS_FILESPACE),
   (FileSystemRelationId, .OCLASS_FILESYSTEM),
   (ForeignDataWrapperRelationId, .OCLASS_FDW),
   (ForeignServerRelationId, .OCLASS_FOREIGN_SERVER),
   (UserMappingRelationId, .OCLASS_USER_MAPPING),
   (ExtprotocolRelationId, .OCLASS_EXTPROTOCOL),
   (CompressionRelationId, .OCLASS_COMPRESSION)]

/-- getObjectClass: reverse mapping of `object_classes`.  The C switch on
`object->classId` is rendered as a first-match lookup over its case table.
The OCLASS_CLASS case returns at once ("caller must check objectSubId");
every other case carries the debug `Assert(object->objectSubId == 0)`,
modelled as `assertViolation` (the stated precondition that sub-object
addresses exist only for relations); no matching case falls through to the
`elog(ERROR, "unrecognized object class")` default. -/
def getObjectClass (object : ObjectAddress) : Except DropError ObjectClass :=
  match getObjectClassCases.find? (fun p => p.1 == object.classId) with
  | none => .error (.unrecognizedObjectClass object.classId)
  | some (_, c) =>
    if c = .OCLASS_CLASS then .ok c
    else if object.objectSubId = 0 then .ok c
    else .error (.assertViolation object)

/-- Result of `get_rel_relkind`: the dispatch in `doDeletion` only
distinguishes RELKIND_INDEX from everything else. -/
inductive RelKind where
  | index
  | ordinary
deriving DecidableEq, Repr

/-- The per-class destructor invocations of `doDeletion`.  The destructors
themselves are external collaborators (spec section 1); the engine's
observable behaviour is which one it invokes with which arguments. -/
inductive DestructorAction where
  | index_drop (oid : Nat)
  | removeAttributeById (oid : Nat) (sub : Int)
  | heap_drop_with_catalog (oid : Nat)
  | removeFunctionById (oid : Nat)
  | removeTypeById (oid : Nat)
  | dropCastById (oid : Nat)
  | removeConstraintById (oid : Nat)
  | removeConversionById (oid : Nat)
  | removeAttrDefaultById (oid : Nat)
  | dropProceduralLanguageById (oid : Nat)
  | removeOperatorById (oid : Nat)
  | removeOpClassById (oid : Nat)
  | removeRewriteRuleById (oid : Nat)
  | removeTriggerById (oid : Nat)
  | removeSchemaById (oid : Nat)
  | removeFileSpaceById (oid : Nat)
  | removeFileSystemById (oid : Nat)
  | removeForeignDataWrapperById (oid : Nat)
  | removeForeignServerById (oid : Nat)
  | removeUserMappingById (oid : Nat)
  | removeExtProtocolById (oid : Nat)
deriving DecidableEq, Repr

/-- Messages the engine emits below ERROR severity. -/
inductive Report where
  | dependsOn (other obj : ObjectAddress)
  | cascadesTo (other : ObjectAddress)
  | autoCascadesTo (other : ObjectAddress)
  | notYetImplemented
deriving DecidableEq, Repr

/-- doDeletion: destructor dispatch on `getObjectClass`.  `relkind` is the
`get_rel_relkind` catalog lookup.  Returns the notices emitted and the
destructor invoked; OCLASS_COMPRESSION emits the "not yet implemented"
notice and invokes nothing; OCLASS_ROLE, OCLASS_DATABASE and
OCLASS_TBLSPACE have no case and fall into the `unrecognized object class`
default. -/
def doDeletion (relkind : Nat → RelKind) (object : ObjectAddress) :
    Except DropError (List Report × List DestructorAction) :=
  match getObjectClass object with
  | .error e => .error e
  | .ok c =>
    match c with
    | .OCLASS_CLASS =>
      if relkind object.objectId = .index then
        if object.objectSubId = 0 then
          .ok ([], [.index_drop object.objectId])
        else
          .error (.assertViolation object)
      else
        if object.objectSubId ≠ 0 then
          .ok ([], [.removeAttributeById object.objectId object.objectSubId])
        else
          .ok ([], [.heap_drop_with_catalog object.objectId])
    | .OCLASS_PROC => .ok ([], [.removeFunctionById object.objectId])
    | .OCLASS_TYPE => .ok ([], [.removeTypeById object.objectId])
    | .OCLASS_CAST => .ok ([], [.dropCastById object.objectId])
    | .OCLASS_CONSTRAINT => .ok ([], [.removeConstraintById object.objectId])
    | .OCLASS_CONVERSION => .ok ([], [.removeConversionById object.objectId])
    | .OCLASS_DEFAULT => .ok ([], [.removeAttrDefaultById object.objectId])
    | .OCLASS_LANGUAGE => .ok ([], [.dropProceduralLanguageById object.objectId])
    | .OCLASS_OPERATOR => .ok ([], [.removeOperatorById object.objectId])
    | .OCLASS_OPCLASS => .ok ([], [.removeOpClassById object.objectId])
    | .OCLASS_REWRITE => .ok ([], [.removeRewriteRuleById object.objectId])
    | .OCLASS_TRIGGER => .ok ([], [.removeTriggerById object.objectId])
    | .OCLASS_SCHEMA => .ok ([], [.removeSchemaById object.objectId])
    | .OCLASS_FILESPACE => .ok ([], [.removeFileSpaceById object.objectId])
    | .OCLASS_FILESYSTEM => .ok ([], [.removeFileSystemById object.objectId])
    | .OCLASS_FDW => .ok ([], [.removeForeignDataWrapperById object.objectId])
    | .OCLASS_FOREIGN_SERVER => .ok ([], [.removeForeignServerById object.objectId])
    | .OCLASS_USER_MAPPING => .ok ([], [.removeUserMappingById object.objectId])
    | .OCLASS_EXTPROTOCOL => .ok ([], [.removeExtProtocolById object.objectId])
    | .OCLASS_COMPRESSION => .ok ([.notYetImplemented], [])
    | .OCLASS_ROLE => .error (.unrecognizedObjectClass object.classId)
    | .OCLASS_DATABASE => .error (.unrecognizedObjectClass object.classId)
    | .OCLASS_TBLSPACE => .error (.unrecognizedObjectClass object.classId)

/-- Predicate of the step-1 scan (`SELECT * FROM pg_depend WHERE classid =
... AND objid = ...` with the objsubid conjunct only when the target has a
sub-object id): does this row link FROM the object. -/
def outgoingMatch (object : ObjectAddress) (r : PgDependRow) : Bool :=
  if object.objectSubId ≠ 0 then
    r.dep.classId == object.classId && r.dep.objectId == object.objectId &&
      r.dep.objectSubId == object.objectSubId
  else
    r.dep.classId == object.classId && r.dep.objectId == object.objectId

/-- Predicate of the incoming scans (refclassid/refobjid/refobjsubid): does
this row link TO the object, with the same whole-object subsumption. -/
def incomingMatch (object : ObjectAddress) (r : PgDependRow) : Bool :=
  if object.objectSubId ≠ 0 then
    r.ref.classId == object.classId && r.ref.objectId == object.objectId &&
      r.ref.objectSubId == object.objectSubId
  else
    r.ref.classId == object.classId && r.ref.objectId == object.objectId

/-- Rows yielded by an outgoing scan (materialised at scan start). -/
def scanOutgoing (edges : List PgDependRow) (object : ObjectAddress) : List PgDependRow :=
  edges.filter (outgoingMatch object)

/-- Rows yielded by an incoming scan (materialised at scan start). -/
def scanIncoming (edges : List PgDependRow) (object : ObjectAddress) : List PgDependRow :=
  edges.filter (incomingMatch object)

/-- caql_delete_current: remove the row with the given tuple identity. -/
def deleteRow (edges : List PgDependRow) (eid : Nat) : List PgDependRow :=
  edges.filter (fun r => r.eid ≠ eid)

/-- SnapshotNow liveness: is the row with this tuple identity still
present (not deleted by a nested recursion since the scan started). -/
def rowLive (edges : List PgDependRow) (eid : Nat) : Bool :=
  edges.any (fun r => r.eid == eid)

/-- The in-transaction state the engine mutates: the pg_depend table, the
log of `doDeletion` invocations and their destructor actions, the optional
`alreadyDeleted` list (NULL for `performDeletion`), and the emitted
sub-ERROR messages (most recent first). -/
structure EngState where
  edges : List PgDependRow
  dropLog : List ObjectAddress
  actions : List DestructorAction
  already : Option (List ObjectAddress)
  reports : List Report
deriving DecidableEq, Repr

/-- Emit one sub-ERROR message. -/
def report (st : EngState) (r : Report) : EngState :=
  { st with reports := r :: st.reports }

/-- The switch body of the `findAutoDeletableObjects` scan for one row:
NORMAL rows are ignored, AUTO/INTERNAL rows recurse on the dependent, a
PIN row raises at once. -/
def findAutoEdge
    (recurse : ObjectAddress → List ObjectAddress → Except DropError (List ObjectAddress))
    (object : ObjectAddress) (okto : List ObjectAddress) (r : PgDependRow) :
    Except DropError (List ObjectAddress) :=
  match r.deptype with
  | .normal => .ok okto
  | .auto => recurse r.dep okto
  | .internal => recurse r.dep okto
  | .pin => .error (.requiredBySystem object)

/-- findAutoDeletableObjects: pre-scan accumulating into `oktodelete`
everything reachable from `object` by AUTO/INTERNAL dependencies, adding
`object` itself when `addself`.  Recursion is guarded by the
`object_address_present` cycle check.  The C recursion is bounded by the
finite pg_depend contents; here `fuel` makes it structural. -/
def findAutoDeletableObjects :
    Nat → List PgDependRow → ObjectAddress → List ObjectAddress → Bool →
      Except DropError (List ObjectAddress)
  | 0, _, _, _, _ => .error .fuelOut
  | f + 1, edges, object, oktodelete, addself =>
    if object_address_present object oktodelete then .ok oktodelete
    else
      (scanIncoming edges object).foldlM
        (findAutoEdge (fun dep okto => findAutoDeletableObjects f edges dep okto true)
          object)
        (if addself then add_exact_object_address object oktodelete else oktodelete)

/-- Accumulator of the step-1 scan of `recursiveDeletion`: the current
edge table plus the `amOwned`/`owningObject` locals. -/
structure Step1Out where
  edges : List PgDependRow
  amOwned : Bool
  owningObject : ObjectAddress
deriving DecidableEq, Repr

/-- One iteration of the step-1 scan of `recursiveDeletion` over an
outgoing row: NORMAL/AUTO rows are just deleted; an INTERNAL row aborts at
the outermost level, is deleted when the caller is the referenced object
(or its whole-object super-object), and otherwise records ownership and is
kept (a second such row is the multiple-INTERNAL corruption); an outgoing
PIN row is corruption. -/
def step1Edge (object : ObjectAddress) (callingObject : Option ObjectAddress)
    (acc : Step1Out) (r : PgDependRow) : Except DropError Step1Out :=
  match r.deptype with
  | .normal => .ok { acc with edges := deleteRow acc.edges r.eid }
  | .auto => .ok { acc with edges := deleteRow acc.edges r.eid }
  | .internal =>
    match callingObject with
    | none => .error (.requiresInstead object r.ref)
    | some caller =>
      if caller.classId == r.ref.classId && caller.objectId == r.ref.objectId &&
          (caller.objectSubId == r.ref.objectSubId || caller.objectSubId == 0) then
        .ok { acc with edges := deleteRow acc.edges r.eid }
      else if acc.amOwned then
        .error (.multipleInternal object)
      else
        .ok { acc with amOwned := true, owningObject := r.ref }
  | .pin => .error (.pinMisuse object)

/-- Step 1 of `recursiveDeletion`: scan and sever the outgoing rows of
`object` (the scan has no nested recursion, so no liveness re-check is
needed; the CommandCounterIncrement after it is the visibility no-op of
this embedding). -/
def step1 (edges : List PgDependRow) (object : ObjectAddress)
    (callingObject : Option ObjectAddress) : Except DropError Step1Out :=
  (scanOutgoing edges object).foldlM (step1Edge object callingObject)
    ⟨edges, false, ⟨0, 0, 0⟩⟩

/-- Step 3 bookkeeping: invoke `doDeletion`, record the drop, and append
to `alreadyDeleted` when a list was supplied and the object is not already
present.  (`DeleteComments` and `deleteSharedDependencyRecordsFor` touch
other catalogs, outside the modelled state.) -/
def doDeletionStep (relkind : Nat → RelKind) (st : EngState) (object : ObjectAddress) :
    Except DropError EngState :=
  match doDeletion relkind object with
  | .error e => .error e
  | .ok (reps, acts) =>
    let st1 := { st with
      dropLog := st.dropLog ++ [object],
      actions := st.actions ++ acts,
      reports := reps.reverse ++ st.reports }
    match st1.already with
    | none => .ok st1
    | some l =>
      if object_address_present object l then .ok st1
      else .ok { st1 with already := some (add_exact_object_address object l) }

/-- The switch body of `deleteDependentObjects` for one live row with
dependent `r.dep`: a NORMAL row cascades silently when the dependent is in
`oktodelete`, records a RESTRICT violation (and still recurses) under
RESTRICT, or cascades with a notice; AUTO/INTERNAL rows always cascade
silently; a PIN row raises at once.  The recursive `recursiveDeletion`
call (with `caller = object`) is abstracted as `recurse` so that the loop
is structurally recursive; `recursiveDeletion` instantiates it. -/
def ddoEdge (recurse : EngState → ObjectAddress → Except DropError (Bool × EngState))
    (st : EngState) (object : ObjectAddress) (behavior : DropBehavior)
    (oktodelete : List ObjectAddress) (ok : Bool) (r : PgDependRow) :
    Except DropError (Bool × EngState) :=
  match r.deptype with
  | .normal =>
    let ok1 : Bool :=
      if object_address_present r.dep oktodelete then ok
      else if behavior = .restrict then false
      else ok
    let st1 :=
      if object_address_present r.dep oktodelete then
        report st (.autoCascadesTo r.dep)
      else if behavior = .restrict then
        report st (.dependsOn r.dep object)
      else
        report st (.cascadesTo r.dep)
    match recurse st1 r.dep with
    | .error e => .error e
    | .ok (ok2, st2) => .ok (ok1 && ok2, st2)
  | .auto =>
    match recurse (report st (.autoCascadesTo r.dep)) r.dep with
    | .error e => .error e
    | .ok (ok2, st2) => .ok (ok && ok2, st2)
  | .internal =>
    match recurse (report st (.autoCascadesTo r.dep)) r.dep with
    | .error e => .error e
    | .ok (ok2, st2) => .ok (ok && ok2, st2)
  | .pin => .error (.requiredBySystem object)

/-- The scan loop of `deleteDependentObjects` over the materialised rows,
skipping rows a nested recursion has deleted (SnapshotNow). -/
def ddoLoop (recurse : EngState → ObjectAddress → Except DropError (Bool × EngState))
    (st : EngState) (rows : List PgDependRow) (object : ObjectAddress)
    (behavior : DropBehavior) (oktodelete : List ObjectAddress) (ok : Bool) :
    Except DropError (Bool × EngState) :=
  match rows with
  | [] => .ok (ok, st)
  | r :: rest =>
    if rowLive st.edges r.eid then
      match ddoEdge recurse st object behavior oktodelete ok r with
      | .error e => .error e
      | .ok (ok1, st1) => ddoLoop recurse st1 rest object behavior oktodelete ok1
    else
      ddoLoop recurse st rest object behavior oktodelete ok

/-- recursiveDeletion: delete `object` plus (recursively) anything that
depends on it.  Step 1 severs outgoing rows (possibly discovering an
owning object); an owned object redirects to its owner instead of
proceeding; otherwise step 2 (the `ddoLoop` scan, packaged as
`deleteDependentObjects` below) recursively drops the dependents and step 3
destroys the object itself.  Returns the RESTRICT-violation flag `ok`
together with the final state. -/
def recursiveDeletion :
    Nat → (Nat → RelKind) → EngState → ObjectAddress → DropBehavior → MsgLevel →
      Option ObjectAddress → List ObjectAddress → Except DropError (Bool × EngState)
  | 0, _, _, _, _, _, _, _ => .error .fuelOut
  | f + 1, relkind, st, object, behavior, msglevel, callingObject, oktodelete =>
    match step1 st.edges object callingObject with
    | .error e => .error e
    | .ok s1 =>
      let st1 := { st with edges := s1.edges }
      if s1.amOwned then
        let owning := s1.owningObject
        let ok0 : Bool :=
          if object_address_present owning oktodelete then true
          else if behavior = .restrict then false
          else true
        let st2 :=
          if object_address_present owning oktodelete then
            report st1 (.autoCascadesTo owning)
          else if behavior = .restrict then
            report st1 (.dependsOn owning object)
          else
            report st1 (.cascadesTo owning)
        match recursiveDeletion f relkind st2 owning behavior msglevel (some object)
            oktodelete with
        | .error e => .error e
        | .ok (ok2, st3) => .ok (ok0 && ok2, st3)
      else
        match ddoLoop
            (fun st' other =>
              recursiveDeletion f relkind st' other behavior msglevel (some object)
                oktodelete)
            st1 (scanIncoming st1.edges object) object behavior oktodelete true with
        | .error e => .error e
        | .ok (ok1, st2) =>
          match doDeletionStep relkind st2 object with
          | .error e => .error e
          | .ok st3 => .ok (ok1, st3)

/-- deleteDependentObjects: step 2 of `recursiveDeletion` - scan the rows
that link to `object` and recursively delete their dependents (with
`caller = object`), collecting the RESTRICT-violation flag.  (The
pg_depend rows themselves are deleted by the recursive calls, not here.)
The body of `recursiveDeletion` at fuel `f + 1` is definitionally this
function at fuel `f`. -/
def deleteDependentObjects (fuel : Nat) (relkind : Nat → RelKind) (st : EngState)
    (object : ObjectAddress) (behavior : DropBehavior) (msglevel : MsgLevel)
    (oktodelete : List ObjectAddress) : Except DropError (Bool × EngState) :=
  ddoLoop
    (fun st' other =>
      recursiveDeletion fuel relkind st' other behavior msglevel (some object) oktodelete)
    st (scanIncoming st.edges object) object behavior oktodelete true

/-- performDeletion: outer control routine - compute `oktodelete` by the
pre-scan (before any mutation), run `recursiveDeletion` at the outermost
level (`callingObject = NULL`, `alreadyDeleted = NULL`), and raise the one
DependentObjectsStillExist error with the CASCADE hint exactly when it
reports a violation. -/
def performDeletion (fuel : Nat) (relkind : Nat → RelKind) (st : EngState)
    (object : ObjectAddress) (behavior : DropBehavior) : Except DropError EngState :=
  let st0 := { st with already := none }
  match findAutoDeletableObjects fuel st0.edges object [] true with
  | .error e => .error e
  | .ok oktodelete =>
    match recursiveDeletion fuel relkind st0 object behavior .notice none oktodelete with
    | .error e => .error e
    | .ok (ok, st1) => if ok then .ok st1 else .error (.stillExist object)

/-- performDeletionWithList: as `performDeletion`, but the supplied
`oktodelete` list may be pre-filled (and is extended in place, so the
updated list is returned) and deletions append to the state's
`alreadyDeleted` list. -/
def performDeletionWithList (fuel : Nat) (relkind : Nat → RelKind) (st : EngState)
    (object : ObjectAddress) (oktodelete : List ObjectAddress)
    (behavior : DropBehavior) : Except DropError (List ObjectAddress × EngState) :=
  match findAutoDeletableObjects fuel st.edges object oktodelete true with
  | .error e => .error e
  | .ok okto1 =>
    match recursiveDeletion fuel relkind st object behavior .notice none okto1 with
    | .error e => .error e
    | .ok (ok, st1) => if ok then .ok (okto1, st1) else .error (.stillExist object)

/-- First loop of performMultipleDeletions: union the implicit
(AUTO/INTERNAL-reachable) closures of all targets, with `addself = false`
and skipping targets that are already implicit. -/
def pmdPhase1 (fuel : Nat) (edges : List PgDependRow) :
    List ObjectAddress → List ObjectAddress → Except DropError (List ObjectAddress)
  | [], implicit => .ok implicit
  | obj :: rest, implicit =>
    if object_address_present obj implicit then pmdPhase1 fuel edges rest implicit
    else
      match findAutoDeletableObjects fuel edges obj implicit false with
      | .error e => .error e
      | .ok impl1 => pmdPhase1 fuel edges rest impl1

/-- Second loop of performMultipleDeletions: in the original order, skip
targets already deleted or implicitly deletable, drop the rest through
`performDeletionWithList` (threading the shared `implicit` list and the
state, whose `already` component is the shared `alreadyDeleted` list). -/
def pmdPhase2 (fuel : Nat) (relkind : Nat → RelKind) :
    List ObjectAddress → EngState → List ObjectAddress → DropBehavior →
      Except DropError (List ObjectAddress × EngState)
  | [], st, implicit, _ => .ok (implicit, st)
  | obj :: rest, st, implicit, behavior =>
    if object_address_present obj (st.already.getD []) then
      pmdPhase2 fuel relkind rest st implicit behavior
    else if object_address_present obj implicit then
      pmdPhase2 fuel relkind rest st implicit behavior
    else
      match performDeletionWithList fuel relkind st obj implicit behavior with
      | .error e => .error e
      | .ok (impl1, st1) => pmdPhase2 fuel relkind rest st1 impl1 behavior

/-- performMultipleDeletions: drop several targets with a shared implicit
list and a shared alreadyDeleted list, so that a target that is implicitly
deletable from another target is deleted only by that cascade. -/
def performMultipleDeletions (fuel : Nat) (relkind : Nat → RelKind) (st : EngState)
    (objects : List ObjectAddress) (behavior : DropBehavior) :
    Except DropError EngState :=
  let st0 := { st with already := some [] }
  match pmdPhase1 fuel st0.edges objects [] with
  | .error e => .error e
  | .ok implicit =>
    match pmdPhase2 fuel relkind objects st0 implicit behavior with
    | .error e => .error e
    | .ok (_, st1) => .ok st1

/-! ## Claim C7: object_address_present -/

/-- Propositional form of one `addressMatches` test. -/
theorem addressMatches_iff (q a : ObjectAddress) :
    addressMatches q a = true ↔
      a.classId = q.classId ∧ a.objectId = q.objectId ∧
        (a.objectSubId = q.objectSubId ∨ a.objectSubId = 0) := by
  unfold addressMatches
  simp only [Bool.and_eq_true, Bool.or_eq_true, beq_iff_eq]
  constructor
  · rintro ⟨⟨h1, h2⟩, h3 | h3⟩
    · exact ⟨h1.symm, h2.symm, Or.inl h3.symm⟩
    · exact ⟨h1.symm, h2.symm, Or.inr h3⟩
  · rintro ⟨h1, h2, h3 | h3⟩
    · exact ⟨⟨h1.symm, h2.symm⟩, Or.inl h3.symm⟩
    · exact ⟨⟨h1.symm, h2.symm⟩, Or.inr h3⟩

/-- C7: for every query address q and AddressSet S, object_address_present
returns true exactly when some entry of S matches q's classId and objectId
and has q's subId or subId 0; in particular a whole-object entry (c,o,0)
makes any (c,o,k) present, while a partial entry (c,o,k) does not make
(c,o,0) present. -/
theorem object_address_present_spec :
    (∀ (q : ObjectAddress) (S : List ObjectAddress),
        object_address_present q S = true ↔
          ∃ a ∈ S, a.classId = q.classId ∧ a.objectId = q.objectId ∧
            (a.objectSubId = q.objectSubId ∨ a.objectSubId = 0)) ∧
    (∀ (c o : Nat) (k : Int) (S : List ObjectAddress),
        (⟨c, o, 0⟩ : ObjectAddress) ∈ S →
          object_address_present ⟨c, o, k⟩ S = true) ∧
    ((⟨1, 1, 1⟩ : ObjectAddress) ∈ [(⟨1, 1, 1⟩ : ObjectAddress)] ∧
      object_address_present ⟨1, 1, 0⟩ [⟨1, 1, 1⟩] = false) := by
  refine ⟨?_, ?_, by decide⟩
  · intro q S
    unfold object_address_present
    rw [List.any_eq_true]
    constructor
    · rintro ⟨a, ha, hm⟩
      exact ⟨a, ha, (addressMatches_iff q a).mp hm⟩
    · rintro ⟨a, ha, hm⟩
      exact ⟨a, ha, (addressMatches_iff q a).mpr hm⟩
  · intro c o k S hmem
    unfold object_address_present
    rw [List.any_eq_true]
    exact ⟨⟨c, o, 0⟩, hmem, by simp [addressMatches]⟩

/-- Witness for `object_address_present_spec`: its second component at a
concrete whole-object entry. -/
theorem object_address_present_spec_witness :
    object_address_present ⟨2, 7, 5⟩ [⟨2, 7, 0⟩] = true :=
  object_address_present_spec.2.1 2 7 5 [⟨2, 7, 0⟩] (by decide)

/-! ## Claim C9: the Compression destructor -/

/-- Empty engine state over a given pg_depend table. -/
def initState (edges : List PgDependRow) : EngState :=
  ⟨edges, [], [], none, []⟩

/-- C9: doDeletion on an object of class Compression emits the "not yet
implemented" notice and returns normally, invoking no destructor; dropping
an isolated such object through recursiveDeletion therefore succeeds,
removing no catalog entry. -/
theorem doDeletion_compression (relkind : Nat → RelKind) (oid : Nat) :
    doDeletion relkind ⟨CompressionRelationId, oid, 0⟩ =
        .ok ([.notYetImplemented], []) ∧
      recursiveDeletion 1 relkind (initState []) ⟨CompressionRelationId, oid, 0⟩
          .cascade .notice none [] =
        .ok (true, ⟨[], [⟨CompressionRelationId, oid, 0⟩], [], none,
          [.notYetImplemented]⟩) := by
  constructor
  · rfl
  · rfl

/-! ## Claim C4: INTERNAL handling in step 1 -/

/-- C4: an outgoing INTERNAL row aborts at the outermost level naming the
owning object; when recursing it is deleted and the scan continues exactly
when the caller is the referenced triple or its whole-object super-object;
otherwise the object is marked owned and the row is kept. -/
theorem step1Edge_internal_spec :
    ∀ (object : ObjectAddress) (acc : Step1Out) (r : PgDependRow),
      r.deptype = .internal →
      (step1Edge object none acc r = .error (.requiresInstead object r.ref)) ∧
      (∀ caller : ObjectAddress,
        caller.classId = r.ref.classId → caller.objectId = r.ref.objectId →
        (caller.objectSubId = r.ref.objectSubId ∨ caller.objectSubId = 0) →
          step1Edge object (some caller) acc r =
            .ok { acc with edges := deleteRow acc.edges r.eid }) ∧
      (∀ caller : ObjectAddress,
        ¬(caller.classId = r.ref.classId ∧ caller.objectId = r.ref.objectId ∧
            (caller.objectSubId = r.ref.objectSubId ∨ caller.objectSubId = 0)) →
        acc.amOwned = false →
          step1Edge object (some caller) acc r =
            .ok { acc with amOwned := true, owningObject := r.ref }) := by
  intro object acc r hint
  refine ⟨?_, ?_, ?_⟩
  · unfold step1Edge
    rw [hint]
  · intro caller h1 h2 h3
    unfold step1Edge
    rw [hint]
    have hc : (caller.classId == r.ref.classId && caller.objectId == r.ref.objectId &&
        (caller.objectSubId == r.ref.objectSubId || caller.objectSubId == 0)) = true := by
      simp only [Bool.and_eq_true, Bool.or_eq_true, beq_iff_eq]
      exact ⟨⟨h1, h2⟩, h3⟩
    simp only [hc, if_true]
  · intro caller hno howned
    unfold step1Edge
    rw [hint]
    have hc : (caller.classId == r.ref.classId && caller.objectId == r.ref.objectId &&
        (caller.objectSubId == r.ref.objectSubId || caller.objectSubId == 0)) = false := by
      rw [Bool.eq_false_iff]
      intro hcontra
      apply hno
      simp only [Bool.and_eq_true, Bool.or_eq_true, beq_iff_eq] at hcontra
      exact ⟨hcontra.1.1, hcontra.1.2, hcontra.2⟩
    simp only [hc, Bool.false_eq_true, if_false, howned, if_false]

/-- Witness for `step1Edge_internal_spec`: a concrete INTERNAL row with a
mismatched caller is kept and marks the object owned. -/
theorem step1Edge_internal_spec_witness :
    step1Edge ⟨1, 2, 0⟩ (some ⟨1, 9, 0⟩) ⟨[⟨5, ⟨1, 2, 0⟩, ⟨1, 3, 0⟩, .internal⟩], false, ⟨0, 0, 0⟩⟩
        ⟨5, ⟨1, 2, 0⟩, ⟨1, 3, 0⟩, .internal⟩ =
      .ok ⟨[⟨5, ⟨1, 2, 0⟩, ⟨1, 3, 0⟩, .internal⟩], true, ⟨1, 3, 0⟩⟩ :=
  (step1Edge_internal_spec ⟨1, 2, 0⟩
      ⟨[⟨5, ⟨1, 2, 0⟩, ⟨1, 3, 0⟩, .internal⟩], false, ⟨0, 0, 0⟩⟩
      ⟨5, ⟨1, 2, 0⟩, ⟨1, 3, 0⟩, .internal⟩ rfl).2.2 ⟨1, 9, 0⟩ (by decide) rfl

/-! ## Claim C10: getObjectClass and the sub-object precondition -/

/-- The registered OIDs are exactly the keys of the switch's case table. -/
theorem registeredClassIds_eq_map :
    registeredClassIds = getObjectClassCases.map Prod.fst := rfl

/-- Every case of the switch maps its key back through `object_classes`. -/
theorem getObjectClassCases_key (p : Nat × ObjectClass)
    (hp : p ∈ getObjectClassCases) : p.1 = object_classes p.2 := by
  fin_cases hp <;> rfl

/-- Only the OCLASS_CLASS case has the Relation key. -/
theorem getObjectClassCases_class (p : Nat × ObjectClass)
    (hp : p ∈ getObjectClassCases) (hc : p.2 = .OCLASS_CLASS) :
    p.1 = RelationRelationId := by
  fin_cases hp <;> simp_all

/-- C10: getObjectClass rejects every classId outside the 23 registered
catalog class OIDs with the `unrecognized object class` error; for every
registered class other than Relation it asserts `objectSubId = 0`
(sub-object addresses exist only for class Relation); and whenever it
succeeds the address is consistent with the `object_classes` table and, for
a non-Relation class, satisfies the sub-object precondition. -/
theorem getObjectClass_spec :
    ∀ a : ObjectAddress,
      (a.classId ∉ registeredClassIds →
        getObjectClass a = .error (.unrecognizedObjectClass a.classId)) ∧
      (a.classId ∈ registeredClassIds → a.classId ≠ RelationRelationId →
        a.objectSubId ≠ 0 → getObjectClass a = .error (.assertViolation a)) ∧
      (a.classId = RelationRelationId → getObjectClass a = .ok .OCLASS_CLASS) ∧
      (∀ c : ObjectClass, getObjectClass a = .ok c →
        a.classId = object_classes c ∧ (c ≠ .OCLASS_CLASS → a.objectSubId = 0)) := by
  intro a
  refine ⟨?_, ?_, ?_, ?_⟩
  · intro hmem
    have hnone : getObjectClassCases.find? (fun p => p.1 == a.classId) = none := by
      rw [List.find?_eq_none]
      intro x hx hpx
      rw [beq_iff_eq] at hpx
      exact hmem (registeredClassIds_eq_map ▸ hpx ▸ List.mem_map_of_mem Prod.fst hx)
    simp only [getObjectClass, hnone]
  · intro hmem hne hsub
    rw [registeredClassIds_eq_map, List.mem_map] at hmem
    obtain ⟨x, hx, hx1⟩ := hmem
    have hisSome : (getObjectClassCases.find? (fun p => p.1 == a.classId)).isSome := by
      rw [List.find?_isSome]
      exact ⟨x, hx, by rw [beq_iff_eq]; exact hx1⟩
    obtain ⟨y, hfind⟩ := Option.isSome_iff_exists.mp hisSome
    have hy1 : y.1 = a.classId := by
      have := List.find?_some hfind
      rwa [beq_iff_eq] at this
    have hymem := List.mem_of_find?_eq_some hfind
    have hyc : y.2 ≠ .OCLASS_CLASS := fun hc =>
      hne (hy1 ▸ getObjectClassCases_class y hymem hc)
    obtain ⟨n, c⟩ := y
    simp only [getObjectClass, hfind]
    rw [if_neg hyc, if_neg hsub]
  · intro hrel
    have hfind : getObjectClassCases.find? (fun p => p.1 == a.classId) =
        some (RelationRelationId, .OCLASS_CLASS) := by
      rw [getObjectClassCases, List.find?_cons_of_pos]
      rw [beq_iff_eq]
      exact hrel.symm
    simp [getObjectClass, hfind]
  · intro c hok
    rcases hfind : getObjectClassCases.find? (fun p => p.1 == a.classId) with _ | y
    · simp only [getObjectClass, hfind] at hok
      simp at hok
    · have hy1 : y.1 = a.classId := by
        have := List.find?_some hfind
        rwa [beq_iff_eq] at this
      have hymem := List.mem_of_find?_eq_some hfind
      obtain ⟨n, c'⟩ := y
      simp only [getObjectClass, hfind] at hok
      split_ifs at hok with h1 h2
      · cases hok
        refine ⟨?_, fun hne => absurd h1 hne⟩
        rw [← hy1]
        exact getObjectClassCases_key _ hymem
      · cases hok
        refine ⟨?_, fun _ => h2⟩
        rw [← hy1]
        exact getObjectClassCases_key _ hymem

/-- Witness for `getObjectClass_spec`: an unregistered classId is rejected
and a sub-object address of a registered non-Relation class trips the
assertion. -/
theorem getObjectClass_spec_witness :
    getObjectClass ⟨999, 1, 0⟩ = .error (.unrecognizedObjectClass 999) ∧
      getObjectClass ⟨1247, 8, 2⟩ = .error (.assertViolation ⟨1247, 8, 2⟩) :=
  ⟨(getObjectClass_spec ⟨999, 1, 0⟩).1 (by decide),
   (getObjectClass_spec ⟨1247, 8, 2⟩).2.1 (by decide) (by decide) (by decide)⟩

/-! ## Claim C6: eliminate_duplicate_dependencies -/

/-- The value range of a C `int32`. -/
def int32Range (i : Int) : Prop :=
  -2147483648 ≤ i ∧ i < 2147483648

instance (i : Int) : Decidable (int32Range i) := by
  unfold int32Range; infer_instance

/-- Strict version of the comparator order. -/
def addrLt (a b : ObjectAddress) : Prop :=
  object_address_comparator a b < 0

/-- The separation produced by duplicate elimination: two entries may share
(classId, objectId) only when both are sub-object entries. -/
def dedupSeparated (x y : ObjectAddress) : Prop :=
  x.classId = y.classId ∧ x.objectId = y.objectId →
    x.objectSubId ≠ 0 ∧ y.objectSubId ≠ 0

/-- Arithmetic characterisation of the comparator's strict order. -/
theorem addrLt_iff (a b : ObjectAddress) :
    addrLt a b ↔
      a.classId < b.classId ∨
        (a.classId = b.classId ∧
          (a.objectId < b.objectId ∨
            (a.objectId = b.objectId ∧ uint32 a.objectSubId < uint32 b.objectSubId))) := by
  unfold addrLt object_address_comparator
  split_ifs <;> omega

/-- A nonzero int32 stays nonzero under the unsigned cast. -/
theorem uint32_ne_zero {i : Int} (h : int32Range i) (hne : i ≠ 0) :
    uint32 i ≠ 0 := by
  unfold uint32 int32Range at *
  omega

/-- The unsigned cast of zero. -/
theorem uint32_zero : uint32 0 = 0 := rfl

/-- The unsigned cast is injective on int32 values. -/
theorem uint32_inj {i j : Int} (hi : int32Range i) (hj : int32Range j)
    (h : uint32 i = uint32 j) : i = j := by
  unfold uint32 int32Range at *
  omega

/-- The comparator is irreflexive in its strict reading. -/
theorem addrLt_ne {a b : ObjectAddress} (h : addrLt a b) : a ≠ b := by
  intro heq
  subst heq
  rw [addrLt_iff] at h
  omega

/-- Every subId in the output of the duplicate-removal walk is a subId of
the input. -/
theorem dedupFold_range :
    ∀ (l : List ObjectAddress) (prior : ObjectAddress),
      int32Range prior.objectSubId → (∀ z ∈ l, int32Range z.objectSubId) →
      ∀ x ∈ dedupFold prior l, int32Range x.objectSubId := by
  intro l
  induction l with
  | nil =>
    intro prior hp _ x hx
    simp only [dedupFold, List.mem_singleton] at hx
    subst hx
    exact hp
  | cons t rest ih =>
    intro prior hp hl x hx
    have ht : int32Range t.objectSubId := hl t (List.mem_cons_self t rest)
    have hrest : ∀ z ∈ rest, int32Range z.objectSubId :=
      fun z hz => hl z (List.mem_cons_of_mem t hz)
    unfold dedupFold at hx
    split_ifs at hx with h1 h2 h3
    · exact ih prior hp hrest x hx
    · exact ih { prior with objectSubId := t.objectSubId } ht hrest x hx
    · rcases List.mem_cons.mp hx with hx | hx
      · subst hx; exact hp
      · exact ih t ht hrest x hx
    · rcases List.mem_cons.mp hx with hx | hx
      · subst hx; exact hp
      · exact ih t ht hrest x hx

/-- Every output of the duplicate-removal walk is at or after `prior` in
the comparator order. -/
theorem dedupFold_le :
    ∀ (l : List ObjectAddress) (prior : ObjectAddress),
      List.Sorted addrLe (prior :: l) → ∀ x ∈ dedupFold prior l, addrLe prior x := by
  intro l
  induction l with
  | nil =>
    intro prior _ x hx
    simp only [dedupFold, List.mem_singleton] at hx
    subst hx
    rw [addrLe_iff]
    omega
  | cons t rest ih =>
    intro prior hs x hx
    have hs' : List.Sorted addrLe (t :: rest) := hs.of_cons
    have hpt : addrLe prior t :=
      (List.sorted_cons.mp hs).1 t (List.mem_cons_self t rest)
    have hsp : List.Sorted addrLe (prior :: rest) :=
      List.Pairwise.sublist ((List.sublist_cons_self t rest).cons₂ prior) hs
    unfold dedupFold at hx
    split_ifs at hx with h1 h2 h3
    · exact ih prior hsp x hx
    · have heq : ({ prior with objectSubId := t.objectSubId } : ObjectAddress) = t := by
        obtain ⟨hc, ho⟩ := h1
        cases prior; cases t; simp_all
      rw [heq] at hx
      exact IsTrans.trans prior t x hpt (ih t hs' x hx)
    · rcases List.mem_cons.mp hx with hx | hx
      · subst hx; rw [addrLe_iff]; omega
      · exact IsTrans.trans prior t x hpt (ih t hs' x hx)
    · rcases List.mem_cons.mp hx with hx | hx
      · subst hx; rw [addrLe_iff]; omega
      · exact IsTrans.trans prior t x hpt (ih t hs' x hx)

/-- Core invariant of the duplicate-removal walk on a sorted int32-ranged
list: the output is strictly increasing and separated. -/
theorem dedupFold_pairwise :
    ∀ (l : List ObjectAddress) (prior : ObjectAddress),
      int32Range prior.objectSubId → (∀ z ∈ l, int32Range z.objectSubId) →
      List.Sorted addrLe (prior :: l) →
      List.Pairwise (fun x y => addrLt x y ∧ dedupSeparated x y) (dedupFold prior l) := by
  intro l
  induction l with
  | nil =>
    intro prior _ _ _
    simp [dedupFold]
  | cons t rest ih =>
    intro prior hp hl hs
    have ht : int32Range t.objectSubId := hl t (List.mem_cons_self t rest)
    have hrest : ∀ z ∈ rest, int32Range z.objectSubId :=
      fun z hz => hl z (List.mem_cons_of_mem t hz)
    have hs' : List.Sorted addrLe (t :: rest) := hs.of_cons
    have hpt : addrLe prior t :=
      (List.sorted_cons.mp hs).1 t (List.mem_cons_self t rest)
    have hsp : List.Sorted addrLe (prior :: rest) :=
      List.Pairwise.sublist ((List.sublist_cons_self t rest).cons₂ prior) hs
    unfold dedupFold
    split_ifs with h1 h2 h3
    · exact ih prior hp hrest hsp
    · have heq : ({ prior with objectSubId := t.objectSubId } : ObjectAddress) = t := by
        obtain ⟨hc, ho⟩ := h1
        cases prior; cases t; simp_all
      rw [heq]
      exact ih t ht hrest hs'
    · -- emit within a (classId, objectId) group: prior.sub ≠ 0 and below t.sub
      refine List.pairwise_cons.mpr ⟨?_, ih t ht hrest hs'⟩
      intro y hy
      have hty : addrLe t y := dedupFold_le rest t hs' y hy
      have hyrange : int32Range y.objectSubId := dedupFold_range rest t ht hrest y hy
      obtain ⟨hc, ho⟩ := h1
      rw [addrLe_iff] at hpt hty
      have hple : uint32 prior.objectSubId ≤ uint32 t.objectSubId := by omega
      have hpne : uint32 prior.objectSubId ≠ uint32 t.objectSubId :=
        fun hcontra => h2 (uint32_inj hp ht hcontra)
      have hpz : uint32 prior.objectSubId ≠ 0 := uint32_ne_zero hp h3
      constructor
      · rw [addrLt_iff]
        omega
      · intro ⟨hcy, hoy⟩
        refine ⟨h3, fun hy0 => ?_⟩
        rw [hy0] at hty
        rw [show uint32 0 = 0 from rfl] at hty
        omega
    · -- emit at a (classId, objectId) group boundary
      refine List.pairwise_cons.mpr ⟨?_, ih t ht hrest hs'⟩
      intro y hy
      have hty : addrLe t y := dedupFold_le rest t hs' y hy
      rw [addrLe_iff] at hpt hty
      rw [Decidable.not_and_iff_or_not] at h1
      constructor
      · rw [addrLt_iff]
        rcases h1 with h1 | h1 <;> omega
      · intro ⟨hcy, hoy⟩
        exfalso
        rcases h1 with h1 | h1 <;> omega

/-- C6: eliminate_duplicate_dependencies produces a strictly sorted list in
which no two entries share (classId, objectId) unless both are sub-object
entries (subId nonzero; inputs are int32 as in C), and in particular no two
entries are identical; a whole-object entry followed in sorted order by a
partial entry of the same object collapses to the partial entry; and the
comparator sorts subId as unsigned, so a whole-object entry sorts strictly
before any partial entry of the same object. -/
theorem eliminate_duplicate_dependencies_spec :
    (∀ addrs : List ObjectAddress,
      (∀ x ∈ addrs, int32Range x.objectSubId) →
        List.Pairwise (fun x y => addrLt x y ∧ dedupSeparated x y)
            (eliminate_duplicate_dependencies addrs) ∧
          (eliminate_duplicate_dependencies addrs).Nodup) ∧
    (∀ (c o : Nat) (k : Int) (rest : List ObjectAddress), k ≠ 0 →
      dedupFold ⟨c, o, 0⟩ (⟨c, o, k⟩ :: rest) = dedupFold ⟨c, o, k⟩ rest) ∧
    (∀ a b : ObjectAddress, a.classId = b.classId → a.objectId = b.objectId →
      a.objectSubId = 0 → b.objectSubId ≠ 0 → int32Range b.objectSubId →
      object_address_comparator a b = -1) := by
  refine ⟨?_, ?_, ?_⟩
  · intro addrs hrange
    have main : List.Pairwise (fun x y => addrLt x y ∧ dedupSeparated x y)
        (eliminate_duplicate_dependencies addrs) := by
      unfold eliminate_duplicate_dependencies
      split_ifs with hlen
      · match addrs with
        | [] => simp
        | [a] => simp
        | a :: b :: rest => simp at hlen
      · rcases hsort : sortObjectAddresses addrs with _ | ⟨h, t⟩
        · exact List.Pairwise.nil
        · have hperm : sortObjectAddresses addrs = List.insertionSort addrLe addrs := rfl
          have hsorted : List.Sorted addrLe (h :: t) := by
            rw [← hsort, hperm]
            exact List.sorted_insertionSort addrLe addrs
          have hrange2 : ∀ x ∈ h :: t, int32Range x.objectSubId := by
            intro x hx
            apply hrange
            have hx2 : x ∈ sortObjectAddresses addrs := by rw [hsort]; exact hx
            rw [hperm] at hx2
            exact (List.perm_insertionSort addrLe addrs).mem_iff.mp hx2
          exact dedupFold_pairwise t h (hrange2 h (List.mem_cons_self h t))
            (fun z hz => hrange2 z (List.mem_cons_of_mem h hz)) hsorted
    exact ⟨main, List.Pairwise.imp (fun h => addrLt_ne h.1) main⟩
  · intro c o k rest hk
    simp only [dedupFold]
    simp [Ne.symm hk]
  · intro a b hc ho ha0 hb0 hbr
    have ha' : uint32 a.objectSubId = 0 := by rw [ha0]; rfl
    have hb' : uint32 b.objectSubId ≠ 0 := uint32_ne_zero hbr hb0
    unfold object_address_comparator
    split_ifs <;> omega

/-- Witness for `eliminate_duplicate_dependencies_spec` at a concrete
input with a whole-object/partial duplicate pair. -/
theorem eliminate_duplicate_dependencies_spec_witness :
    (List.Pairwise (fun x y => addrLt x y ∧ dedupSeparated x y)
        (eliminate_duplicate_dependencies [⟨1, 5, 0⟩, ⟨1, 4, 2⟩, ⟨1, 5, 3⟩, ⟨1, 4, 2⟩]) ∧
      (eliminate_duplicate_dependencies [⟨1, 5, 0⟩, ⟨1, 4, 2⟩, ⟨1, 5, 3⟩, ⟨1, 4, 2⟩]).Nodup) ∧
    dedupFold ⟨1, 5, 0⟩ [⟨1, 5, 3⟩] = dedupFold ⟨1, 5, 3⟩ [] ∧
    object_address_comparator ⟨1, 5, 0⟩ ⟨1, 5, 3⟩ = -1 :=
  ⟨eliminate_duplicate_dependencies_spec.1 _ (by decide),
   eliminate_duplicate_dependencies_spec.2.1 1 5 3 [] (by decide),
   eliminate_duplicate_dependencies_spec.2.2 ⟨1, 5, 0⟩ ⟨1, 5, 3⟩ rfl rfl rfl
     (by decide) (by decide)⟩

/-! ## Claim C1: order-independence of the deletion pass -/

/-- A relkind oracle classifying every relation as a non-index. -/
def rkOrdinary : Nat → RelKind := fun _ => .ordinary

/-- The RESTRICT-violation messages of a `recursiveDeletion` outcome. -/
def violationsOf (r : Except DropError (Bool × EngState)) : List Report :=
  match r with
  | .ok (_, st) =>
    st.reports.filter fun m =>
      match m with
      | .dependsOn _ _ => true
      | _ => false
  | .error _ => []

/-- The doDeletion invocations of a `recursiveDeletion` outcome. -/
def dropLogOf (r : Except DropError (Bool × EngState)) : List ObjectAddress :=
  match r with
  | .ok (_, st) => st.dropLog
  | .error _ => []

/-- The success flag of a `recursiveDeletion` outcome. -/
def okFlagOf (r : Except DropError (Bool × EngState)) : Option Bool :=
  match r with
  | .ok (k, _) => some k
  | .error _ => none

/-- Target of the order-dependence scenarios. -/
def c1A : ObjectAddress := ⟨1259, 100, 0⟩

/-- A NORMAL dependent of `c1A`. -/
def c1C : ObjectAddress := ⟨1259, 101, 0⟩

/-- A NORMAL dependent of `c1A` that is also an AUTO dependent of `c1C`. -/
def c1X : ObjectAddress := ⟨1259, 102, 0⟩

/-- Scenario 1 rows: c1C NORMAL→c1A, c1X NORMAL→c1A, c1X AUTO→c1C.  Here
`oktodelete = [c1A]` (nothing is AUTO-reachable from c1A), and which
RESTRICT violations get reported depends on which incoming row of c1A the
scan visits first. -/
def c1Rows : List PgDependRow :=
  [⟨1, c1C, c1A, .normal⟩, ⟨2, c1X, c1A, .normal⟩, ⟨3, c1X, c1C, .auto⟩]

/-- Scenario 1 with the two NORMAL rows swapped (same row set). -/
def c1RowsSwapped : List PgDependRow :=
  [⟨2, c1X, c1A, .normal⟩, ⟨1, c1C, c1A, .normal⟩, ⟨3, c1X, c1C, .auto⟩]

/-- Scenario 1, first scan order. -/
def c1Run1 : Except DropError (Bool × EngState) :=
  recursiveDeletion 10 rkOrdinary (initState c1Rows) c1A .restrict .notice none [c1A]

/-- Scenario 1, second scan order. -/
def c1Run2 : Except DropError (Bool × EngState) :=
  recursiveDeletion 10 rkOrdinary (initState c1RowsSwapped) c1A .restrict .notice none [c1A]

/-- A whole-object address and a sub-object address of the same relation,
both NORMAL dependents of `c1A`. -/
def c1T0 : ObjectAddress := ⟨1259, 50, 0⟩

/-- The sub-object (column 1) of the relation behind `c1T0`. -/
def c1T1 : ObjectAddress := ⟨1259, 50, 1⟩

/-- Scenario 2 rows: the sub-object row first. -/
def c1SubRows : List PgDependRow :=
  [⟨1, c1T1, c1A, .normal⟩, ⟨2, c1T0, c1A, .normal⟩]

/-- Scenario 2 rows: the whole-object row first (same row set). -/
def c1SubRowsSwapped : List PgDependRow :=
  [⟨2, c1T0, c1A, .normal⟩, ⟨1, c1T1, c1A, .normal⟩]

/-- Scenario 2, first scan order (CASCADE). -/
def c1Run3 : Except DropError (Bool × EngState) :=
  recursiveDeletion 10 rkOrdinary (initState c1SubRows) c1A .cascade .notice none [c1A]

/-- Scenario 2, second scan order (CASCADE). -/
def c1Run4 : Except DropError (Bool × EngState) :=
  recursiveDeletion 10 rkOrdinary (initState c1SubRowsSwapped) c1A .cascade .notice none [c1A]

/-- Counterexample to C1: on the same row set, visiting the incoming rows
of `c1A` in the two possible orders reports different sets of RESTRICT
violations (scenario 1: `c1X depends on c1A` is reported by one order
only), and with a whole-object and a sub-object dependent the two orders
even delete different sets of objects (scenario 2: the sub-object `c1T1`
receives its own doDeletion in one order only, because the whole-object
recursion severs the sub-object's rows first). -/
theorem recursiveDeletion_order_counterexample :
    (violationsOf c1Run1 = [.dependsOn c1C c1A] ∧
      violationsOf c1Run2 = [.dependsOn c1C c1A, .dependsOn c1X c1A] ∧
      Report.dependsOn c1X c1A ∈ violationsOf c1Run2 ∧
      Report.dependsOn c1X c1A ∉ violationsOf c1Run1 ∧
      dropLogOf c1Run1 = dropLogOf c1Run2 ∧
      okFlagOf c1Run1 = some false ∧ okFlagOf c1Run2 = some false) ∧
    (dropLogOf c1Run3 = [c1T1, c1T0, c1A] ∧
      dropLogOf c1Run4 = [c1T0, c1A] ∧
      c1T1 ∈ dropLogOf c1Run3 ∧ c1T1 ∉ dropLogOf c1Run4) := by
  decide

/-- The violation messages of a `performDeletion` outcome. -/
def pdViolations (r : Except DropError EngState) : List Report :=
  match r with
  | .ok st =>
    st.reports.filter fun m =>
      match m with
      | .dependsOn _ _ => true
      | _ => false
  | .error _ => []

/-- The doDeletion invocations of a `performDeletion` outcome. -/
def pdDropLog (r : Except DropError EngState) : List ObjectAddress :=
  match r with
  | .ok st => st.dropLog
  | .error _ => []

/-- The two AUTO dependents of the comment's motivating scenario. -/
def c1B : ObjectAddress := ⟨1259, 300, 0⟩

/-- The second AUTO dependent; `c1B` also has a NORMAL row to it. -/
def c1D : ObjectAddress := ⟨1259, 301, 0⟩

/-- The motivating scenario of the code's comment on `recursiveDeletion`:
B and D are AUTO-deletable from A, and B additionally NORMAL-depends on
D. -/
def c1BCRows : List PgDependRow :=
  [⟨1, c1B, c1A, .auto⟩, ⟨2, c1D, c1A, .auto⟩, ⟨3, c1B, c1D, .normal⟩]

/-- The motivating scenario with the two AUTO rows swapped (same set). -/
def c1BCRowsSwapped : List PgDependRow :=
  [⟨2, c1D, c1A, .auto⟩, ⟨1, c1B, c1A, .auto⟩, ⟨3, c1B, c1D, .normal⟩]

/-- Amended C1: `oktodelete` makes `deleteDependentObjects` handle a NORMAL
row whose dependent is in it exactly like an AUTO row, so in the two-path
scenario the pre-computed list exists for, both scan orders delete the same
objects under RESTRICT with no violation reported; full order-independence
of the violation set (and, with sub-objects, of the deleted set) does not
hold (see the counterexample). -/
theorem oktodelete_normal_as_auto :
    (∀ (recurse : EngState → ObjectAddress → Except DropError (Bool × EngState))
        (st : EngState) (object : ObjectAddress) (behavior : DropBehavior)
        (oktodelete : List ObjectAddress) (ok : Bool) (r : PgDependRow),
      object_address_present r.dep oktodelete = true → r.deptype = .normal →
        ddoEdge recurse st object behavior oktodelete ok r =
          ddoEdge recurse st object behavior oktodelete ok { r with deptype := .auto }) ∧
    (pdDropLog (performDeletion 10 rkOrdinary (initState c1BCRows) c1A .restrict) =
        [c1B, c1D, c1A] ∧
      pdDropLog (performDeletion 10 rkOrdinary (initState c1BCRowsSwapped) c1A .restrict) =
        [c1B, c1D, c1A] ∧
      pdViolations (performDeletion 10 rkOrdinary (initState c1BCRows) c1A .restrict) = [] ∧
      pdViolations (performDeletion 10 rkOrdinary (initState c1BCRowsSwapped) c1A
        .restrict) = []) := by
  constructor
  · intro recurse st object behavior oktodelete ok r hpres hdep
    simp only [ddoEdge, hdep, hpres, if_true]
  · decide

/-- Witness for `oktodelete_normal_as_auto`: its handler-equality component
at a concrete NORMAL row whose dependent is in oktodelete. -/
theorem oktodelete_normal_as_auto_witness :
    ddoEdge (fun st _ => .ok (true, st)) (initState []) c1A .restrict [c1B] true
        ⟨7, c1B, c1A, .normal⟩ =
      ddoEdge (fun st _ => .ok (true, st)) (initState []) c1A .restrict [c1B] true
        ⟨7, c1B, c1A, .auto⟩ :=
  oktodelete_normal_as_auto.1 (fun st _ => .ok (true, st)) (initState []) c1A .restrict
    [c1B] true ⟨7, c1B, c1A, .normal⟩ (by decide) rfl

/-! ## Claim C5: termination on cyclic graphs -/

/-- Target of the divergence scenario. -/
def c5A : ObjectAddress := ⟨1259, 400, 0⟩

/-- AUTO dependent of `c5A`, owned (INTERNAL) by `c5W`. -/
def c5X : ObjectAddress := ⟨1259, 402, 0⟩

/-- Owner of `c5X`, itself owned by `c5V`. -/
def c5W : ObjectAddress := ⟨1259, 403, 0⟩

/-- Owner of `c5W`, itself owned by `c5X`: an INTERNAL ownership 3-cycle. -/
def c5V : ObjectAddress := ⟨1259, 404, 0⟩

/-- The divergence graph: c5X AUTO→c5A plus the INTERNAL ownership cycle
c5X→c5W→c5V→c5X (each object has exactly one outgoing INTERNAL row, as the
at-most-one-INTERNAL invariant demands). -/
def c5Rows : List PgDependRow :=
  [⟨1, c5X, c5A, .auto⟩, ⟨2, c5X, c5W, .internal⟩, ⟨3, c5W, c5V, .internal⟩,
   ⟨4, c5V, c5X, .internal⟩]

/-- The rows left once step 1 of the recursion into `c5X` has severed its
AUTO row: the pure INTERNAL cycle, which no later step ever deletes. -/
def c5CycleRows : List PgDependRow :=
  [⟨2, c5X, c5W, .internal⟩, ⟨3, c5W, c5V, .internal⟩, ⟨4, c5V, c5X, .internal⟩]

/-- The oktodelete list `findAutoDeletableObjects` computes for `c5A`. -/
def c5Okto : List ObjectAddress := [c5A, c5X, c5V, c5W]

/-- The engine state inside the ownership loop: the cycle rows plus the
accumulated cascade notices. -/
def c5LoopState (rp : List Report) : EngState :=
  ⟨c5CycleRows, [], [], none, rp⟩

/-- One step of the ownership loop at `c5X` (caller `c5V`): step 1 keeps the
INTERNAL row, marks `c5X` owned by `c5W`, and recurses into `c5W` with one
fuel less and nothing else changed. -/
theorem c5_unroll_X (f : Nat) (rp : List Report) :
    recursiveDeletion (f + 1) rkOrdinary (c5LoopState rp) c5X .cascade .notice
        (some c5V) c5Okto =
      match recursiveDeletion f rkOrdinary
          (c5LoopState (.autoCascadesTo c5W :: rp)) c5W .cascade .notice
          (some c5X) c5Okto with
      | .error e => .error e
      | .ok (k, s) => .ok (true && k, s) := rfl

/-- One step of the ownership loop at `c5W` (caller `c5X`). -/
theorem c5_unroll_W (f : Nat) (rp : List Report) :
    recursiveDeletion (f + 1) rkOrdinary (c5LoopState rp) c5W .cascade .notice
        (some c5X) c5Okto =
      match recursiveDeletion f rkOrdinary
          (c5LoopState (.autoCascadesTo c5V :: rp)) c5V .cascade .notice
          (some c5W) c5Okto with
      | .error e => .error e
      | .ok (k, s) => .ok (true && k, s) := rfl

/-- One step of the ownership loop at `c5V` (caller `c5W`). -/
theorem c5_unroll_V (f : Nat) (rp : List Report) :
    recursiveDeletion (f + 1) rkOrdinary (c5LoopState rp) c5V .cascade .notice
        (some c5W) c5Okto =
      match recursiveDeletion f rkOrdinary
          (c5LoopState (.autoCascadesTo c5X :: rp)) c5X .cascade .notice
          (some c5V) c5Okto with
      | .error e => .error e
      | .ok (k, s) => .ok (true && k, s) := rfl

/-- The ownership loop never terminates: every fuel bound is exhausted, in
each of its three configurations, whatever notices have accumulated. -/
theorem c5_cycle_fuelOut (f : Nat) :
    ∀ rp : List Report,
      recursiveDeletion f rkOrdinary (c5LoopState rp) c5X .cascade .notice
          (some c5V) c5Okto = .error .fuelOut ∧
      recursiveDeletion f rkOrdinary (c5LoopState rp) c5W .cascade .notice
          (some c5X) c5Okto = .error .fuelOut ∧
      recursiveDeletion f rkOrdinary (c5LoopState rp) c5V .cascade .notice
          (some c5W) c5Okto = .error .fuelOut := by
  induction f with
  | zero => intro rp; exact ⟨rfl, rfl, rfl⟩
  | succ f ih =>
    intro rp
    refine ⟨?_, ?_, ?_⟩
    · rw [c5_unroll_X f rp, (ih (.autoCascadesTo c5W :: rp)).2.1]
    · rw [c5_unroll_W f rp, (ih (.autoCascadesTo c5V :: rp)).2.2]
    · rw [c5_unroll_V f rp, (ih (.autoCascadesTo c5X :: rp)).1]

/-- The entry into the loop: recursing into `c5X` from the cascade at
`c5A` severs the AUTO row and then defers to the owner `c5W`. -/
theorem c5_unroll_XA (f : Nat) :
    recursiveDeletion (f + 1) rkOrdinary
        ⟨c5Rows, [], [], none, [.autoCascadesTo c5X]⟩ c5X .cascade .notice
        (some c5A) c5Okto =
      match recursiveDeletion f rkOrdinary
          (c5LoopState [.autoCascadesTo c5W, .autoCascadesTo c5X]) c5W .cascade
          .notice (some c5X) c5Okto with
      | .error e => .error e
      | .ok (k, s) => .ok (true && k, s) := rfl

/-- The outermost recursion at `c5A`: its incoming scan finds the AUTO row
and recurses into `c5X`; everything after that recursion is the shown
continuation. -/
theorem c5_unroll_A (f : Nat) :
    recursiveDeletion (f + 1) rkOrdinary ⟨c5Rows, [], [], none, []⟩ c5A .cascade
        .notice none c5Okto =
      match (match (match recursiveDeletion f rkOrdinary
                  ⟨c5Rows, [], [], none, [.autoCascadesTo c5X]⟩ c5X .cascade
                  .notice (some c5A) c5Okto with
              | .error e => (.error e : Except DropError (Bool × EngState))
              | .ok (ok2, st2) => .ok (true && ok2, st2)) with
          | .error e => (.error e : Except DropError (Bool × EngState))
          | .ok (ok1, st1) => .ok (ok1, st1)) with
      | .error e => (.error e : Except DropError (Bool × EngState))
      | .ok (ok1, st2) =>
        match doDeletionStep rkOrdinary st2 c5A with
        | .error e => .error e
        | .ok st3 => .ok (ok1, st3) := rfl

/-- The pre-scan on the divergence graph needs five levels and then yields
its fixed oktodelete list, independently of any extra fuel. -/
theorem c5_findAuto (f : Nat) :
    findAutoDeletableObjects (f + 5) c5Rows c5A [] true = .ok c5Okto := rfl

/-- performDeletion on the divergence graph, with any fuel of at least
five, reduces to the outermost recursion with the computed oktodelete. -/
theorem c5_unroll_top (f : Nat) :
    performDeletion (f + 5) rkOrdinary (initState c5Rows) c5A .cascade =
      match recursiveDeletion (f + 5) rkOrdinary ⟨c5Rows, [], [], none, []⟩ c5A
          .cascade .notice none c5Okto with
      | .error e => .error e
      | .ok (k, s) => if k then .ok s else .error (.stillExist c5A) := rfl

/-- C5 fails on the code: on the INTERNAL ownership 3-cycle hanging off an
AUTO dependent, performDeletion (CASCADE) exhausts every fuel bound - the
ownership redirection of step 1 recurses from `c5X` to `c5W` to `c5V` and
back to `c5X` without ever deleting a pg_depend row, so the traversal never
terminates even though the graph is finite and every object has at most one
outgoing INTERNAL row. -/
theorem performDeletion_internal_cycle_diverges :
    ∀ fuel : Nat,
      performDeletion fuel rkOrdinary (initState c5Rows) c5A .cascade =
        .error .fuelOut := by
  intro fuel
  rcases Nat.lt_or_ge fuel 5 with h | h
  · interval_cases fuel <;> decide
  · obtain ⟨g, rfl⟩ : ∃ g, fuel = g + 5 := ⟨fuel - 5, by omega⟩
    have h0 := (c5_cycle_fuelOut g [.autoCascadesTo c5W, .autoCascadesTo c5X,
      .autoCascadesTo c5V, .autoCascadesTo c5W, .autoCascadesTo c5X]).2.1
    have h1 : recursiveDeletion (g + 1) rkOrdinary
        (c5LoopState [.autoCascadesTo c5X, .autoCascadesTo c5V,
          .autoCascadesTo c5W, .autoCascadesTo c5X]) c5X .cascade .notice
        (some c5V) c5Okto = .error .fuelOut := by
      rw [c5_unroll_X g _, h0]
    have h2 : recursiveDeletion (g + 1 + 1) rkOrdinary
        (c5LoopState [.autoCascadesTo c5V, .autoCascadesTo c5W,
          .autoCascadesTo c5X]) c5V .cascade .notice (some c5W) c5Okto =
        .error .fuelOut := by
      rw [c5_unroll_V (g + 1) _, h1]
    have h3 : recursiveDeletion (g + 1 + 1 + 1) rkOrdinary
        (c5LoopState [.autoCascadesTo c5W, .autoCascadesTo c5X]) c5W .cascade
        .notice (some c5X) c5Okto = .error .fuelOut := by
      rw [c5_unroll_W (g + 1 + 1) _, h2]
    have h4 : recursiveDeletion (g + 1 + 1 + 1 + 1) rkOrdinary
        ⟨c5Rows, [], [], none, [.autoCascadesTo c5X]⟩ c5X .cascade .notice
        (some c5A) c5Okto = .error .fuelOut := by
      rw [c5_unroll_XA (g + 1 + 1 + 1), h3]
    have h5 : recursiveDeletion (g + 1 + 1 + 1 + 1 + 1) rkOrdinary
        ⟨c5Rows, [], [], none, []⟩ c5A .cascade .notice none c5Okto =
        .error .fuelOut := by
      rw [c5_unroll_A (g + 1 + 1 + 1 + 1), h4]
    have h5' : recursiveDeletion (g + 5) rkOrdinary
        ⟨c5Rows, [], [], none, []⟩ c5A .cascade .notice none c5Okto =
        .error .fuelOut := h5
    rw [c5_unroll_top g, h5']

/-! ## Claim C2: RESTRICT violations are recorded, not raised -/

/-- Step 3 always appends the object to the drop log. -/
theorem doDeletionStep_dropLog (relkind : Nat → RelKind) (st : EngState)
    (object : ObjectAddress) (st3 : EngState)
    (h : doDeletionStep relkind st object = .ok st3) :
    st3.dropLog = st.dropLog ++ [object] := by
  unfold doDeletionStep at h
  rcases hdo : doDeletion relkind object with e | p
  · rw [hdo] at h
    cases h
  · rw [hdo] at h
    obtain ⟨reps, acts⟩ := p
    rcases hal : st.already with _ | l
    · simp only [hal] at h
      cases h
      rfl
    · simp only [hal] at h
      split_ifs at h <;> cases h <;> rfl

/-- C2: a RESTRICT violation never raises at the point it is found - the
NORMAL/RESTRICT/not-oktodelete branch of `deleteDependentObjects` only
logs the "depends on" message, forces the ok flag to false and still
recurses into the dependent (an error can arise only from that recursion);
a recursion whose step 1 finds no owner deletes the dependent (it reaches
the drop log); and `performDeletion` turns a false flag into the single
DependentObjectsStillExist error at the outermost level, passes a true
flag through as success, and synthesizes no such error from anything
else. -/
theorem restrict_violation_not_raised :
    (∀ (recurse : EngState → ObjectAddress → Except DropError (Bool × EngState))
        (st : EngState) (object : ObjectAddress) (oktodelete : List ObjectAddress)
        (ok : Bool) (r : PgDependRow),
      r.deptype = .normal → object_address_present r.dep oktodelete = false →
        ddoEdge recurse st object .restrict oktodelete ok r =
          match recurse (report st (.dependsOn r.dep object)) r.dep with
          | .error e => .error e
          | .ok (k2, st2) => .ok (false && k2, st2)) ∧
    (∀ (f : Nat) (relkind : Nat → RelKind) (st : EngState) (object : ObjectAddress)
        (behavior : DropBehavior) (msglevel : MsgLevel)
        (caller : Option ObjectAddress) (oktodelete : List ObjectAddress)
        (s1 : Step1Out) (k : Bool) (st' : EngState),
      step1 st.edges object caller = .ok s1 → s1.amOwned = false →
      recursiveDeletion (f + 1) relkind st object behavior msglevel caller
          oktodelete = .ok (k, st') →
        object ∈ st'.dropLog) ∧
    (∀ (fuel : Nat) (relkind : Nat → RelKind) (st : EngState)
        (object : ObjectAddress) (behavior : DropBehavior)
        (oktodelete : List ObjectAddress),
      findAutoDeletableObjects fuel st.edges object [] true = .ok oktodelete →
        (∀ st', recursiveDeletion fuel relkind { st with already := none } object
            behavior .notice none oktodelete = .ok (false, st') →
          performDeletion fuel relkind st object behavior =
            .error (.stillExist object)) ∧
        (∀ st', recursiveDeletion fuel relkind { st with already := none } object
            behavior .notice none oktodelete = .ok (true, st') →
          performDeletion fuel relkind st object behavior = .ok st') ∧
        (∀ e, recursiveDeletion fuel relkind { st with already := none } object
            behavior .notice none oktodelete = .error e →
          performDeletion fuel relkind st object behavior = .error e)) := by
  refine ⟨?_, ?_, ?_⟩
  · intro recurse st object oktodelete ok r hdep hpres
    simp only [ddoEdge, hdep, hpres, Bool.false_eq_true, if_false]
    simp
  · intro f relkind st object behavior msglevel caller oktodelete s1 k st' hstep
      howned hrec
    simp only [recursiveDeletion, hstep, howned, Bool.false_eq_true, if_false] at hrec
    rcases hddo : ddoLoop
        (fun st'' other =>
          recursiveDeletion f relkind st'' other behavior msglevel (some object)
            oktodelete)
        { st with edges := s1.edges } (scanIncoming s1.edges object) object behavior
        oktodelete true with e | p
    · rw [hddo] at hrec
      cases hrec
    · rw [hddo] at hrec
      obtain ⟨ok1, st2⟩ := p
      dsimp only at hrec
      rcases hdel : doDeletionStep relkind st2 object with e | st3
      · rw [hdel] at hrec
        cases hrec
      · rw [hdel] at hrec
        have hst : st' = st3 := by
          cases hrec
          rfl
        rw [hst, doDeletionStep_dropLog relkind st2 object st3 hdel]
        exact List.mem_append_right _ (List.mem_singleton_self object)
  · intro fuel relkind st object behavior oktodelete hfa
    refine ⟨?_, ?_, ?_⟩
    · intro st' hrec
      simp only [performDeletion, hfa, hrec]
      simp
    · intro st' hrec
      simp only [performDeletion, hfa, hrec]
      simp
    · intro e hrec
      simp only [performDeletion, hfa, hrec]

/-- Witness for `restrict_violation_not_raised`: a concrete non-owned
recursion logs its object, and a concrete successful RESTRICT drop goes
through `performDeletion` without an error. -/
theorem restrict_violation_not_raised_witness :
    c1A ∈ (⟨[], [c1A], [.heap_drop_with_catalog 100], none, []⟩ : EngState).dropLog ∧
      performDeletion 1 rkOrdinary (initState []) c1A .restrict =
        .ok ⟨[], [c1A], [.heap_drop_with_catalog 100], none, []⟩ :=
  ⟨restrict_violation_not_raised.2.1 0 rkOrdinary (initState []) c1A .cascade .notice
      none [] ⟨[], false, ⟨0, 0, 0⟩⟩ true
      ⟨[], [c1A], [.heap_drop_with_catalog 100], none, []⟩ (by decide) rfl (by decide),
   (restrict_violation_not_raised.2.2 1 rkOrdinary (initState []) c1A .restrict [c1A]
      (by decide)).2.1 ⟨[], [c1A], [.heap_drop_with_catalog 100], none, []⟩ (by decide)⟩

/-! ## Claim C3: PIN edges block deletion - auxiliary invariants -/

/-- Well-formedness of the pg_depend table: tuple identities are unique. -/
def NodupEids (edges : List PgDependRow) : Prop :=
  edges.Pairwise (fun a b => a.eid ≠ b.eid)

/-- Distinct rows of a well-formed table have distinct tuple ids. -/
theorem eid_injective {edges : List PgDependRow} (h : NodupEids edges)
    {p q : PgDependRow} (hp : p ∈ edges) (hq : q ∈ edges) (heq : p.eid = q.eid) :
    p = q := by
  by_contra hne
  exact List.Pairwise.forall (fun {x y} hxy => (Ne.symm hxy)) h hp hq hne heq

/-- A row of the current table is live. -/
theorem rowLive_of_mem {edges : List PgDependRow} {r : PgDependRow} (h : r ∈ edges) :
    rowLive edges r.eid = true := by
  unfold rowLive
  rw [List.any_eq_true]
  exact ⟨r, h, by simp⟩

/-- Row deletion only shrinks the table. -/
theorem deleteRow_sublist (edges : List PgDependRow) (eid : Nat) :
    (deleteRow edges eid).Sublist edges :=
  List.filter_sublist edges

/-- A row with a different tuple id survives a row deletion. -/
theorem mem_deleteRow {edges : List PgDependRow} {p : PgDependRow} {eid : Nat}
    (hp : p ∈ edges) (hne : p.eid ≠ eid) : p ∈ deleteRow edges eid := by
  unfold deleteRow
  rw [List.mem_filter]
  exact ⟨hp, by simpa using hne⟩

/-- Emitting a message does not touch the edge table. -/
theorem report_edges (st : EngState) (r : Report) : (report st r).edges = st.edges := rfl

/-- Step 3 does not touch the edge table. -/
theorem doDeletionStep_edges (relkind : Nat → RelKind) (st : EngState)
    (object : ObjectAddress) (st3 : EngState)
    (h : doDeletionStep relkind st object = .ok st3) : st3.edges = st.edges := by
  unfold doDeletionStep at h
  rcases hdo : doDeletion relkind object with e | p
  · rw [hdo] at h
    cases h
  · rw [hdo] at h
    obtain ⟨reps, acts⟩ := p
    rcases hal : st.already with _ | l
    · simp only [hal] at h
      cases h
      rfl
    · simp only [hal] at h
      split_ifs at h <;> cases h <;> rfl

/-- What one step-1 iteration can do to the edge table: keep it, or delete
the current (non-PIN) row. -/
theorem step1Edge_ok_edges {object : ObjectAddress} {caller : Option ObjectAddress}
    {acc : Step1Out} {r : PgDependRow} {acc' : Step1Out}
    (h : step1Edge object caller acc r = .ok acc') :
    acc'.edges = acc.edges ∨ (acc'.edges = deleteRow acc.edges r.eid ∧ r.deptype ≠ .pin) := by
  unfold step1Edge at h
  rcases hd : r.deptype with _ | _ | _ | _ <;> rw [hd] at h
  · cases h
    exact Or.inr ⟨rfl, by simp [hd]⟩
  · cases h
    exact Or.inr ⟨rfl, by simp [hd]⟩
  · rcases caller with _ | c
    · cases h
    · cases hc : (c.classId == r.ref.classId && c.objectId == r.ref.objectId &&
        (c.objectSubId == r.ref.objectSubId || c.objectSubId == 0))
      · simp only [hc, Bool.false_eq_true, if_false] at h
        cases ho : acc.amOwned
        · simp only [ho, Bool.false_eq_true, if_false] at h
          cases h
          exact Or.inl rfl
        · simp only [ho, if_true] at h
          cases h
      · simp only [hc, if_true] at h
        cases h
        exact Or.inr ⟨rfl, by simp [hd]⟩
  · cases h

/-- Invariant of the step-1 scan: the table only shrinks and PIN rows of a
well-formed table are never deleted (the PIN arm raises before the
delete). -/
theorem step1_fold_preserve (edges0 : List PgDependRow) (hnd : NodupEids edges0)
    (object : ObjectAddress) (caller : Option ObjectAddress) :
    ∀ (rows : List PgDependRow) (acc : Step1Out) (s1 : Step1Out),
      (∀ x ∈ rows, x ∈ edges0) → acc.edges.Sublist edges0 →
      rows.foldlM (step1Edge object caller) acc = .ok s1 →
      s1.edges.Sublist acc.edges ∧
        (∀ p ∈ acc.edges, p.deptype = .pin → p ∈ s1.edges) := by
  intro rows
  induction rows with
  | nil =>
    intro acc s1 _ _ h
    rw [List.foldlM_nil] at h
    cases h
    exact ⟨List.Sublist.refl _, fun p hp _ => hp⟩
  | cons r rest ih =>
    intro acc s1 hsub hacc h
    rw [List.foldlM_cons] at h
    rcases hstep : step1Edge object caller acc r with e | acc'
    · rw [hstep] at h
      cases h
    · rw [hstep] at h
      have hrsub : ∀ x ∈ rest, x ∈ edges0 := fun x hx => hsub x (List.mem_cons_of_mem r hx)
      rcases step1Edge_ok_edges hstep with hsame | ⟨hdel, hpin⟩
      · obtain ⟨hs, hp⟩ := ih acc' s1 hrsub (hsame ▸ hacc) h
        exact ⟨hsame ▸ hs, fun p hp2 hpt => hp p (hsame ▸ hp2) hpt⟩
      · have hsub' : acc'.edges.Sublist acc.edges := hdel ▸ deleteRow_sublist acc.edges r.eid
        obtain ⟨hs, hp⟩ := ih acc' s1 hrsub (hsub'.trans hacc) h
        refine ⟨hs.trans hsub', fun p hp2 hpt => ?_⟩
        refine hp p ?_ hpt
        rw [hdel]
        apply mem_deleteRow hp2
        intro heq
        have : p = r := eid_injective hnd (hacc.subset hp2) (hsub r (List.mem_cons_self r rest)) heq
        rw [this] at hpt
        exact hpin hpt
  
/-- Step 1 only shrinks the table and keeps every PIN row. -/
theorem step1_preserve {edges : List PgDependRow} {object : ObjectAddress}
    {caller : Option ObjectAddress} {s1 : Step1Out} (hnd : NodupEids edges)
    (h : step1 edges object caller = .ok s1) :
    s1.edges.Sublist edges ∧ (∀ p ∈ edges, p.deptype = .pin → p ∈ s1.edges) := by
  unfold step1 at h
  exact step1_fold_preserve edges hnd object caller (scanOutgoing edges object)
    ⟨edges, false, ⟨0, 0, 0⟩⟩ s1
    (fun x hx => (List.filter_sublist edges).subset hx)
    (List.Sublist.refl _) h

/-- The shape of the invariant threaded through the recursion: a
successful call only shrinks the table and keeps every PIN row. -/
def RecPreserves
    (recurse : EngState → ObjectAddress → Except DropError (Bool × EngState)) : Prop :=
  ∀ (st : EngState) (other : ObjectAddress) (k : Bool) (st' : EngState),
    NodupEids st.edges → recurse st other = .ok (k, st') →
      st'.edges.Sublist st.edges ∧
        (∀ p ∈ st.edges, p.deptype = .pin → p ∈ st'.edges)

/-- One incoming-scan iteration preserves the invariant, provided the
recursion it performs does. -/
theorem ddoEdge_preserve
    {recurse : EngState → ObjectAddress → Except DropError (Bool × EngState)}
    (hR : RecPreserves recurse) (st : EngState) (object : ObjectAddress)
    (behavior : DropBehavior) (oktodelete : List ObjectAddress) (ok : Bool)
    (r : PgDependRow) (k : Bool) (st' : EngState) (hnd : NodupEids st.edges)
    (h : ddoEdge recurse st object behavior oktodelete ok r = .ok (k, st')) :
    st'.edges.Sublist st.edges ∧
      (∀ p ∈ st.edges, p.deptype = .pin → p ∈ st'.edges) := by
  unfold ddoEdge at h
  rcases hd : r.deptype with _ | _ | _ | _ <;> rw [hd] at h <;> dsimp only at h
  · set st1 :=
      if object_address_present r.dep oktodelete = true then
        report st (.autoCascadesTo r.dep)
      else if behavior = .restrict then
        report st (.dependsOn r.dep object)
      else
        report st (.cascadesTo r.dep) with hst1
    have hedg : st1.edges = st.edges := by
      rw [hst1]
      split_ifs <;> rfl
    rcases hrec : recurse st1 r.dep with e | p
    · rw [hrec] at h
      cases h
    · rw [hrec] at h
      obtain ⟨k2, st2⟩ := p
      have hst : st' = st2 := by cases h; rfl
      subst hst
      obtain ⟨hs, hp⟩ := hR st1 r.dep k2 st' (by rw [hedg]; exact hnd) hrec
      exact ⟨hedg ▸ hs, fun p hp2 hpt => hp p (by rw [hedg]; exact hp2) hpt⟩
  · rcases hrec : recurse (report st (.autoCascadesTo r.dep)) r.dep with e | p
    · rw [hrec] at h
      cases h
    · rw [hrec] at h
      obtain ⟨k2, st2⟩ := p
      have hst : st' = st2 := by cases h; rfl
      subst hst
      exact hR (report st (.autoCascadesTo r.dep)) r.dep k2 st' hnd hrec
  · rcases hrec : recurse (report st (.autoCascadesTo r.dep)) r.dep with e | p
    · rw [hrec] at h
      cases h
    · rw [hrec] at h
      obtain ⟨k2, st2⟩ := p
      have hst : st' = st2 := by cases h; rfl
      subst hst
      exact hR (report st (.autoCascadesTo r.dep)) r.dep k2 st' hnd hrec
  · cases h

/-- The incoming scan loop preserves the invariant. -/
theorem ddoLoop_preserve
    {recurse : EngState → ObjectAddress → Except DropError (Bool × EngState)}
    (hR : RecPreserves recurse) (object : ObjectAddress) (behavior : DropBehavior)
    (oktodelete : List ObjectAddress) :
    ∀ (rows : List PgDependRow) (st : EngState) (ok : Bool) (k : Bool)
      (st' : EngState), NodupEids st.edges →
      ddoLoop recurse st rows object behavior oktodelete ok = .ok (k, st') →
      st'.edges.Sublist st.edges ∧
        (∀ p ∈ st.edges, p.deptype = .pin → p ∈ st'.edges) := by
  intro rows
  induction rows with
  | nil =>
    intro st ok k st' _ h
    have hst : st' = st := by cases h; rfl
    subst hst
    exact ⟨List.Sublist.refl _, fun p hp _ => hp⟩
  | cons r rest ih =>
    intro st ok k st' hnd h
    unfold ddoLoop at h
    split_ifs at h with hlive
    · rcases hedge : ddoEdge recurse st object behavior oktodelete ok r with e | p
      · rw [hedge] at h
        cases h
      · rw [hedge] at h
        obtain ⟨ok1, st1⟩ := p
        obtain ⟨hs1, hp1⟩ := ddoEdge_preserve hR st object behavior oktodelete ok r
          ok1 st1 hnd hedge
        obtain ⟨hs2, hp2⟩ := ih st1 ok1 k st' (List.Pairwise.sublist hs1 hnd) h
        exact ⟨hs2.trans hs1, fun p hp hpt => hp2 p (hp1 p hp hpt) hpt⟩
    · exact ih st ok k st' hnd h

/-- A successful `recursiveDeletion` only shrinks the pg_depend table and
never deletes a PIN row (the PIN arms of step 1 and of the dependent scan
raise before any deletion reaches them). -/
theorem recursiveDeletion_preserves :
    ∀ (fuel : Nat) (relkind : Nat → RelKind) (behavior : DropBehavior)
      (msglevel : MsgLevel) (caller : Option ObjectAddress)
      (oktodelete : List ObjectAddress) (st : EngState) (object : ObjectAddress)
      (k : Bool) (st' : EngState), NodupEids st.edges →
      recursiveDeletion fuel relkind st object behavior msglevel caller oktodelete =
        .ok (k, st') →
      st'.edges.Sublist st.edges ∧
        (∀ p ∈ st.edges, p.deptype = .pin → p ∈ st'.edges) := by
  intro fuel
  induction fuel with
  | zero =>
    intro relkind behavior msglevel caller oktodelete st object k st' _ h
    cases h
  | succ f ihf =>
    intro relkind behavior msglevel caller oktodelete st object k st' hnd h
    simp only [recursiveDeletion] at h
    rcases hstep : step1 st.edges object caller with e | s1
    · rw [hstep] at h
      cases h
    · rw [hstep] at h
      dsimp only at h
      obtain ⟨hs1, hp1⟩ := step1_preserve hnd hstep
      have hnd1 : NodupEids s1.edges := List.Pairwise.sublist hs1 hnd
      by_cases howned : s1.amOwned = true
      · rw [if_pos howned] at h
        set st2 :=
          if object_address_present s1.owningObject oktodelete = true then
            report { st with edges := s1.edges } (.autoCascadesTo s1.owningObject)
          else if behavior = .restrict then
            report { st with edges := s1.edges } (.dependsOn s1.owningObject object)
          else
            report { st with edges := s1.edges } (.cascadesTo s1.owningObject)
          with hst2
        have hedg : st2.edges = s1.edges := by
          rw [hst2]
          split_ifs <;> rfl
        rcases hrec : recursiveDeletion f relkind st2 s1.owningObject behavior
            msglevel (some object) oktodelete with e | p
        · rw [hrec] at h
          cases h
        · rw [hrec] at h
          obtain ⟨k2, st3⟩ := p
          have hst : st' = st3 := by cases h; rfl
          subst hst
          obtain ⟨hs2, hp2⟩ := ihf relkind behavior msglevel (some object) oktodelete
            st2 s1.owningObject k2 st' (by rw [hedg]; exact hnd1) hrec
          rw [hedg] at hs2
          refine ⟨hs2.trans hs1, fun p hp hpt => ?_⟩
          refine hp2 p ?_ hpt
          rw [hedg]
          exact hp1 p hp hpt
      · rw [if_neg howned] at h
        rcases hddo : ddoLoop
            (fun st'' other =>
              recursiveDeletion f relkind st'' other behavior msglevel (some object)
                oktodelete)
            { st with edges := s1.edges } (scanIncoming s1.edges object) object
            behavior oktodelete true with e | p
        · rw [hddo] at h
          cases h
        · rw [hddo] at h
          dsimp only at h
          obtain ⟨ok1, st2⟩ := p
          have hR : RecPreserves (fun st'' other =>
              recursiveDeletion f relkind st'' other behavior msglevel (some object)
                oktodelete) :=
            fun st'' other k2 st3 hnd2 hr =>
              ihf relkind behavior msglevel (some object) oktodelete st'' other k2 st3
                hnd2 hr
          obtain ⟨hs2, hp2⟩ := ddoLoop_preserve hR object behavior oktodelete
            (scanIncoming s1.edges object) { st with edges := s1.edges } true ok1 st2
            hnd1 hddo
          rcases hdel : doDeletionStep relkind st2 object with e | st3
          · rw [hdel] at h
            cases h
          · rw [hdel] at h
            have hst : st' = st3 := by cases h; rfl
            subst hst
            rw [doDeletionStep_edges relkind st2 object st' hdel]
            exact ⟨hs2.trans hs1, fun p hp hpt => hp2 p (hp1 p hp hpt) hpt⟩

/-- If the materialised scan still holds a live PIN row, the scan loop
ends in an error: either an earlier recursion aborts, or the PIN row -
which no recursion can delete - is reached and raises. -/
theorem ddoLoop_pin
    {recurse : EngState → ObjectAddress → Except DropError (Bool × EngState)}
    (hR : RecPreserves recurse) (object : ObjectAddress) (behavior : DropBehavior)
    (oktodelete : List ObjectAddress) :
    ∀ (rows : List PgDependRow) (st : EngState) (ok : Bool), NodupEids st.edges →
      (∃ r ∈ rows, r.deptype = .pin ∧ r ∈ st.edges) →
      ∃ e, ddoLoop recurse st rows object behavior oktodelete ok = .error e := by
  intro rows
  induction rows with
  | nil =>
    intro st ok _ hex
    obtain ⟨r, hr, _⟩ := hex
    cases hr
  | cons r rest ih =>
    intro st ok hnd hex
    unfold ddoLoop
    obtain ⟨q, hq, hqpin, hqmem⟩ := hex
    rcases List.mem_cons.mp hq with hq | hq
    · subst hq
      rw [if_pos (rowLive_of_mem hqmem)]
      have : ddoEdge recurse st object behavior oktodelete ok q =
          .error (.requiredBySystem object) := by
        unfold ddoEdge
        rw [hqpin]
      rw [this]
      exact ⟨.requiredBySystem object, rfl⟩
    · by_cases hlive : rowLive st.edges r.eid = true
      · rw [if_pos hlive]
        rcases hedge : ddoEdge recurse st object behavior oktodelete ok r with e | p
        · exact ⟨e, rfl⟩
        · obtain ⟨ok1, st1⟩ := p
          obtain ⟨hs1, hp1⟩ := ddoEdge_preserve hR st object behavior oktodelete ok r
            ok1 st1 hnd hedge
          obtain ⟨e, he⟩ := ih st1 ok1 (List.Pairwise.sublist hs1 hnd)
            ⟨q, hq, hqpin, hp1 q hqmem hqpin⟩
          exact ⟨e, he⟩
      · rw [if_neg hlive]
        exact ih st ok hnd ⟨q, hq, hqpin, hqmem⟩

/-- The shape of every `findAutoDeletableObjects` outcome: success, fuel
exhaustion (a modelling artifact), or the PIN error. -/
theorem findAuto_shape :
    ∀ (fuel : Nat) (edges : List PgDependRow) (object : ObjectAddress)
      (okto : List ObjectAddress) (addself : Bool),
      (∃ l, findAutoDeletableObjects fuel edges object okto addself = .ok l) ∨
        findAutoDeletableObjects fuel edges object okto addself = .error .fuelOut ∨
        (∃ o, findAutoDeletableObjects fuel edges object okto addself =
          .error (.requiredBySystem o)) := by
  intro fuel
  induction fuel with
  | zero =>
    intro edges object okto addself
    exact Or.inr (Or.inl rfl)
  | succ f ihf =>
    intro edges object okto addself
    simp only [findAutoDeletableObjects]
    have hfold : ∀ (rows : List PgDependRow) (acc : List ObjectAddress),
          (∃ l, rows.foldlM
              (findAutoEdge
                (fun dep okto => findAutoDeletableObjects f edges dep okto true)
                object) acc = .ok l) ∨
            rows.foldlM
              (findAutoEdge
                (fun dep okto => findAutoDeletableObjects f edges dep okto true)
                object) acc = .error .fuelOut ∨
            (∃ o, rows.foldlM
              (findAutoEdge
                (fun dep okto => findAutoDeletableObjects f edges dep okto true)
                object) acc = .error (.requiredBySystem o)) := by
      intro rows
      induction rows with
        | nil => intro acc; exact Or.inl ⟨acc, rfl⟩
        | cons r rest ihr =>
          intro acc
          rw [List.foldlM_cons]
          rcases hd : r.deptype with _ | _ | _ | _ <;>
            simp only [findAutoEdge, hd]
          · exact ihr acc
          · rcases ihf edges r.dep acc true with ⟨l, hl⟩ | hl | ⟨o, hl⟩
            · rw [hl]
              exact ihr l
            · rw [hl]
              exact Or.inr (Or.inl rfl)
            · rw [hl]
              exact Or.inr (Or.inr ⟨o, rfl⟩)
          · rcases ihf edges r.dep acc true with ⟨l, hl⟩ | hl | ⟨o, hl⟩
            · rw [hl]
              exact ihr l
            · rw [hl]
              exact Or.inr (Or.inl rfl)
            · rw [hl]
              exact Or.inr (Or.inr ⟨o, rfl⟩)
          · exact Or.inr (Or.inr ⟨object, rfl⟩)
    split_ifs with hpres
    · exact Or.inl ⟨okto, rfl⟩
    · exact hfold (scanIncoming edges object) _
    · exact hfold (scanIncoming edges object) _

/-- A PIN row in the incoming scan of the pre-scan's object keeps it from
succeeding. -/
theorem findAuto_pin_not_ok :
    ∀ (fuel : Nat) (edges : List PgDependRow) (object : ObjectAddress)
      (okto : List ObjectAddress) (addself : Bool),
      (∃ r ∈ scanIncoming edges object, r.deptype = .pin) →
      object_address_present object okto = false →
      ∀ l, findAutoDeletableObjects fuel edges object okto addself ≠ .ok l := by
  intro fuel edges object okto addself hex hpres l
  cases fuel with
  | zero => intro h; cases h
  | succ f =>
    simp only [findAutoDeletableObjects, hpres, Bool.false_eq_true, if_false]
    have hfold : ∀ (rows : List PgDependRow) (acc : List ObjectAddress),
        (∃ r ∈ rows, r.deptype = .pin) →
        ∀ l, rows.foldlM
            (findAutoEdge
              (fun dep okto => findAutoDeletableObjects f edges dep okto true)
              object) acc ≠ .ok l := by
      intro rows
      induction rows with
      | nil =>
        intro acc hex2 l2
        obtain ⟨r, hr, _⟩ := hex2
        cases hr
      | cons r rest ihr =>
        intro acc hex2 l2
        rw [List.foldlM_cons]
        obtain ⟨q, hq, hqpin⟩ := hex2
        rcases List.mem_cons.mp hq with hq | hq
        · subst hq
          simp only [findAutoEdge, hqpin]
          intro h
          cases h
        · rcases hd : r.deptype with _ | _ | _ | _ <;> simp only [findAutoEdge, hd]
          · exact ihr acc ⟨q, hq, hqpin⟩ l2
          · rcases hrec : findAutoDeletableObjects f edges r.dep acc true with e | l3
            · intro h
              cases h
            · exact ihr l3 ⟨q, hq, hqpin⟩ l2
          · rcases hrec : findAutoDeletableObjects f edges r.dep acc true with e | l3
            · intro h
              cases h
            · exact ihr l3 ⟨q, hq, hqpin⟩ l2
          · intro h
            cases h
    exact hfold (scanIncoming edges object) _ hex l

/-- Emitting a message does not touch the drop log. -/
theorem report_dropLog (st : EngState) (r : Report) :
    (report st r).dropLog = st.dropLog := rfl

/-- A PIN row links to its own referenced address. -/
theorem incomingMatch_ref_self (p : PgDependRow) : incomingMatch p.ref p = true := by
  unfold incomingMatch
  split_ifs <;> simp

/-- Pin safety of a recursion procedure: a successful call from a state
holding the PIN row never adds an address the row links to to the drop
log. -/
def RecPinSafe (p : PgDependRow)
    (recurse : EngState → ObjectAddress → Except DropError (Bool × EngState)) : Prop :=
  ∀ (st : EngState) (other : ObjectAddress) (k : Bool) (st' : EngState),
    NodupEids st.edges → p ∈ st.edges → recurse st other = .ok (k, st') →
      ∀ o, incomingMatch o p = true → o ∈ st'.dropLog → o ∈ st.dropLog

/-- One incoming-scan iteration is pin safe when its recursion is. -/
theorem ddoEdge_pin_dropLog {p : PgDependRow}
    {recurse : EngState → ObjectAddress → Except DropError (Bool × EngState)}
    (hP : RecPinSafe p recurse) (st : EngState) (object : ObjectAddress)
    (behavior : DropBehavior) (oktodelete : List ObjectAddress) (ok : Bool)
    (r : PgDependRow) (k : Bool) (st' : EngState) (hnd : NodupEids st.edges)
    (hp : p ∈ st.edges)
    (h : ddoEdge recurse st object behavior oktodelete ok r = .ok (k, st')) :
    ∀ o, incomingMatch o p = true → o ∈ st'.dropLog → o ∈ st.dropLog := by
  unfold ddoEdge at h
  rcases hd : r.deptype with _ | _ | _ | _ <;> rw [hd] at h <;> dsimp only at h
  · set st1 :=
      if object_address_present r.dep oktodelete = true then
        report st (.autoCascadesTo r.dep)
      else if behavior = .restrict then
        report st (.dependsOn r.dep object)
      else
        report st (.cascadesTo r.dep) with hst1
    have hedg : st1.edges = st.edges := by
      rw [hst1]
      split_ifs <;> rfl
    have hlog : st1.dropLog = st.dropLog := by
      rw [hst1]
      split_ifs <;> rfl
    rcases hrec : recurse st1 r.dep with e | q
    · rw [hrec] at h
      cases h
    · rw [hrec] at h
      obtain ⟨k2, st2⟩ := q
      have hst : st' = st2 := by cases h; rfl
      subst hst
      intro o hmo hoin
      rw [← hlog]
      exact hP st1 r.dep k2 st' (by rw [hedg]; exact hnd) (by rw [hedg]; exact hp)
        hrec o hmo hoin
  · rcases hrec : recurse (report st (.autoCascadesTo r.dep)) r.dep with e | q
    · rw [hrec] at h
      cases h
    · rw [hrec] at h
      obtain ⟨k2, st2⟩ := q
      have hst : st' = st2 := by cases h; rfl
      subst hst
      intro o hmo hoin
      exact hP (report st (.autoCascadesTo r.dep)) r.dep k2 st' hnd hp hrec o hmo hoin
  · rcases hrec : recurse (report st (.autoCascadesTo r.dep)) r.dep with e | q
    · rw [hrec] at h
      cases h
    · rw [hrec] at h
      obtain ⟨k2, st2⟩ := q
      have hst : st' = st2 := by cases h; rfl
      subst hst
      intro o hmo hoin
      exact hP (report st (.autoCascadesTo r.dep)) r.dep k2 st' hnd hp hrec o hmo hoin
  · cases h

/-- The incoming scan loop is pin safe when its recursion is. -/
theorem ddoLoop_pin_dropLog {p : PgDependRow}
    {recurse : EngState → ObjectAddress → Except DropError (Bool × EngState)}
    (hR : RecPreserves recurse) (hP : RecPinSafe p recurse) (object : ObjectAddress)
    (behavior : DropBehavior) (oktodelete : List ObjectAddress)
    (hpin : p.deptype = .pin) :
    ∀ (rows : List PgDependRow) (st : EngState) (ok : Bool) (k : Bool)
      (st' : EngState), NodupEids st.edges → p ∈ st.edges →
      ddoLoop recurse st rows object behavior oktodelete ok = .ok (k, st') →
      ∀ o, incomingMatch o p = true → o ∈ st'.dropLog → o ∈ st.dropLog := by
  intro rows
  induction rows with
  | nil =>
    intro st ok k st' _ _ h
    have hst : st' = st := by cases h; rfl
    subst hst
    exact fun o _ ho => ho
  | cons r rest ih =>
    intro st ok k st' hnd hp h
    unfold ddoLoop at h
    split_ifs at h with hlive
    · rcases hedge : ddoEdge recurse st object behavior oktodelete ok r with e | q
      · rw [hedge] at h
        cases h
      · rw [hedge] at h
        obtain ⟨ok1, st1⟩ := q
        obtain ⟨hs1, hp1⟩ := ddoEdge_preserve hR st object behavior oktodelete ok r
          ok1 st1 hnd hedge
        intro o hmo hoin
        exact ddoEdge_pin_dropLog hP st object behavior oktodelete ok r ok1 st1 hnd
          hp hedge o hmo
          (ih st1 ok1 k st' (List.Pairwise.sublist hs1 hnd) (hp1 p hp hpin) h o hmo hoin)
    · exact ih st ok k st' hnd hp h

/-- A successful `recursiveDeletion` from a table holding a PIN row never
adds an address the row links to to the drop log: the only level whose
step-3 would record such an address is the one whose incoming scan holds
the live PIN row, and that scan raises instead. -/
theorem recursiveDeletion_pin_dropLog :
    ∀ (fuel : Nat) (relkind : Nat → RelKind) (behavior : DropBehavior)
      (msglevel : MsgLevel) (caller : Option ObjectAddress)
      (oktodelete : List ObjectAddress) (st : EngState) (object : ObjectAddress)
      (k : Bool) (st' : EngState) (p : PgDependRow), NodupEids st.edges →
      p ∈ st.edges → p.deptype = .pin →
      recursiveDeletion fuel relkind st object behavior msglevel caller oktodelete =
        .ok (k, st') →
      ∀ o, incomingMatch o p = true → o ∈ st'.dropLog → o ∈ st.dropLog := by
  intro fuel
  induction fuel with
  | zero =>
    intro relkind behavior msglevel caller oktodelete st object k st' p _ _ _ h
    cases h
  | succ f ihf =>
    intro relkind behavior msglevel caller oktodelete st object k st' p hnd hp hpin h
    simp only [recursiveDeletion] at h
    rcases hstep : step1 st.edges object caller with e | s1
    · rw [hstep] at h
      cases h
    · rw [hstep] at h
      dsimp only at h
      obtain ⟨hs1, hp1⟩ := step1_preserve hnd hstep
      have hnd1 : NodupEids s1.edges := List.Pairwise.sublist hs1 hnd
      have hpmem1 : p ∈ s1.edges := hp1 p hp hpin
      by_cases howned : s1.amOwned = true
      · rw [if_pos howned] at h
        set st2 :=
          if object_address_present s1.owningObject oktodelete = true then
            report { st with edges := s1.edges } (.autoCascadesTo s1.owningObject)
          else if behavior = .restrict then
            report { st with edges := s1.edges } (.dependsOn s1.owningObject object)
          else
            report { st with edges := s1.edges } (.cascadesTo s1.owningObject)
          with hst2
        have hedg : st2.edges = s1.edges := by
          rw [hst2]
          split_ifs <;> rfl
        have hlog : st2.dropLog = st.dropLog := by
          rw [hst2]
          split_ifs <;> rfl
        rcases hrec : recursiveDeletion f relkind st2 s1.owningObject behavior
            msglevel (some object) oktodelete with e | q
        · rw [hrec] at h
          cases h
        · rw [hrec] at h
          obtain ⟨k2, st3⟩ := q
          have hst : st' = st3 := by cases h; rfl
          subst hst
          intro o hmo hoin
          rw [← hlog]
          exact ihf relkind behavior msglevel (some object) oktodelete st2
            s1.owningObject k2 st' p (by rw [hedg]; exact hnd1)
            (by rw [hedg]; exact hpmem1) hpin hrec o hmo hoin
      · rw [if_neg howned] at h
        rcases hddo : ddoLoop
            (fun st'' other =>
              recursiveDeletion f relkind st'' other behavior msglevel (some object)
                oktodelete)
            { st with edges := s1.edges } (scanIncoming s1.edges object) object
            behavior oktodelete true with e | q
        · rw [hddo] at h
          cases h
        · rw [hddo] at h
          dsimp only at h
          obtain ⟨ok1, st2⟩ := q
          have hR : RecPreserves (fun st'' other =>
              recursiveDeletion f relkind st'' other behavior msglevel (some object)
                oktodelete) :=
            fun st'' other k2 st3 hnd2 hr =>
              recursiveDeletion_preserves f relkind behavior msglevel (some object)
                oktodelete st'' other k2 st3 hnd2 hr
          have hP : RecPinSafe p (fun st'' other =>
              recursiveDeletion f relkind st'' other behavior msglevel (some object)
                oktodelete) :=
            fun st'' other k2 st3 hnd2 hp2 hr =>
              ihf relkind behavior msglevel (some object) oktodelete st'' other k2 st3
                p hnd2 hp2 hpin hr
          rcases hdel : doDeletionStep relkind st2 object with e | st3
          · rw [hdel] at h
            cases h
          · rw [hdel] at h
            have hst : st' = st3 := by cases h; rfl
            subst hst
            intro o hmo hoin
            rw [doDeletionStep_dropLog relkind st2 object st' hdel] at hoin
            rcases List.mem_append.mp hoin with hoin | hoin
            · exact ddoLoop_pin_dropLog hR hP object behavior oktodelete hpin
                (scanIncoming s1.edges object) { st with edges := s1.edges } true ok1
                st2 hnd1 hpmem1 hddo o hmo hoin
            · exfalso
              have hoeq : o = object := List.mem_singleton.mp hoin
              subst hoeq
              obtain ⟨e, he⟩ := ddoLoop_pin hR o behavior oktodelete
                (scanIncoming s1.edges o) { st with edges := s1.edges } true hnd1
                ⟨p, List.mem_filter.mpr ⟨hpmem1, hmo⟩, hpin, hpmem1⟩
              rw [hddo] at he
              cases he

/-- C3: PIN edges block deletion.  If the table holds a PIN row `p` linking
to `object` (and tuple ids are unique), then (i) the pre-scan
`findAutoDeletableObjects` on `object` never succeeds (its PIN arm raises
"required by the database system"; the only other non-success is the
model's fuel bound); (ii) the incoming-edge scan `deleteDependentObjects`
on `object` always raises; (iii) `performDeletion` on `object` fails even
under CASCADE, with the PIN error or the model's fuel bound; and (iv) a
pinned object is never deleted: no successful `recursiveDeletion` from any
target ever adds `object` to the drop log. -/
theorem pin_blocks_deletion (fuel : Nat) (relkind : Nat → RelKind) (st : EngState)
    (object : ObjectAddress) (behavior : DropBehavior) (msglevel : MsgLevel)
    (oktodelete : List ObjectAddress) (p : PgDependRow)
    (hp : p ∈ st.edges) (hpin : p.deptype = .pin)
    (hm : incomingMatch object p = true) (hnd : NodupEids st.edges) :
    (∀ (okto : List ObjectAddress) (addself : Bool),
      object_address_present object okto = false →
      ∀ l, findAutoDeletableObjects fuel st.edges object okto addself ≠ .ok l) ∧
    (∃ e, deleteDependentObjects fuel relkind st object behavior msglevel oktodelete =
      .error e) ∧
    (performDeletion fuel relkind st object behavior = .error .fuelOut ∨
      ∃ o, performDeletion fuel relkind st object behavior =
        .error (.requiredBySystem o)) ∧
    (∀ (target : ObjectAddress) (caller : Option ObjectAddress) (k : Bool)
      (st' : EngState),
      recursiveDeletion fuel relkind st target behavior msglevel caller oktodelete =
        .ok (k, st') →
      object ∈ st'.dropLog → object ∈ st.dropLog) := by
  have hscan : p ∈ scanIncoming st.edges object :=
    List.mem_filter.mpr ⟨hp, hm⟩
  refine ⟨?_, ?_, ?_, ?_⟩
  · intro okto addself hpres l
    exact findAuto_pin_not_ok fuel st.edges object okto addself ⟨p, hscan, hpin⟩ hpres l
  · have hR : RecPreserves (fun st' other =>
        recursiveDeletion fuel relkind st' other behavior msglevel (some object)
          oktodelete) :=
      fun st' other k2 st3 hnd2 hr =>
        recursiveDeletion_preserves fuel relkind behavior msglevel (some object)
          oktodelete st' other k2 st3 hnd2 hr
    exact ddoLoop_pin hR object behavior oktodelete (scanIncoming st.edges object)
      st true hnd ⟨p, hscan, hpin, hp⟩
  · have hpres0 : object_address_present object [] = false := rfl
    rcases findAuto_shape fuel st.edges object [] true with ⟨l, hl⟩ | hl | ⟨o, hl⟩
    · exact absurd hl (findAuto_pin_not_ok fuel st.edges object [] true
        ⟨p, hscan, hpin⟩ hpres0 l)
    · left
      unfold performDeletion
      dsimp only
      rw [hl]
    · right
      refine ⟨o, ?_⟩
      unfold performDeletion
      dsimp only
      rw [hl]
  · intro target caller k st' hrec hmem
    exact recursiveDeletion_pin_dropLog fuel relkind behavior msglevel caller
      oktodelete st target k st' p hnd hp hpin hrec object hm hmem

/-- The PIN row of the witness table: object 601 is required by the system
through dependent 600. -/
def c3Pin : PgDependRow := ⟨1, ⟨1259, 600, 0⟩, ⟨1259, 601, 0⟩, .pin⟩

/-- The witness state: a single-row table, nothing dropped yet. -/
def c3St : EngState := ⟨[c3Pin], [], [], none, []⟩

theorem pin_blocks_deletion_witness :
    (c3Pin ∈ c3St.edges ∧ c3Pin.deptype = .pin ∧
      incomingMatch ⟨1259, 601, 0⟩ c3Pin = true ∧ NodupEids c3St.edges) ∧
    ((∀ (okto : List ObjectAddress) (addself : Bool),
      object_address_present ⟨1259, 601, 0⟩ okto = false →
      ∀ l, findAutoDeletableObjects 5 c3St.edges ⟨1259, 601, 0⟩ okto addself ≠
        .ok l) ∧
    (∃ e, deleteDependentObjects 5 rkOrdinary c3St ⟨1259, 601, 0⟩ .cascade .notice [] =
      .error e) ∧
    (performDeletion 5 rkOrdinary c3St ⟨1259, 601, 0⟩ .cascade = .error .fuelOut ∨
      ∃ o, performDeletion 5 rkOrdinary c3St ⟨1259, 601, 0⟩ .cascade =
        .error (.requiredBySystem o)) ∧
    (∀ (target : ObjectAddress) (caller : Option ObjectAddress) (k : Bool)
      (st' : EngState),
      recursiveDeletion 5 rkOrdinary c3St target .cascade .notice caller [] =
        .ok (k, st') →
      (⟨1259, 601, 0⟩ : ObjectAddress) ∈ st'.dropLog →
      (⟨1259, 601, 0⟩ : ObjectAddress) ∈ c3St.dropLog)) :=
  ⟨⟨List.mem_singleton.mpr rfl, rfl, rfl, List.pairwise_singleton _ _⟩,
    pin_blocks_deletion 5 rkOrdinary c3St ⟨1259, 601, 0⟩ .cascade .notice [] c3Pin
      (List.mem_singleton.mpr rfl) rfl rfl (List.pairwise_singleton _ _)⟩

/-! ## Claim C8: double drops in performMultipleDeletions -/

/-- Target `a` of the multiple-drop scenario. -/
def c8A : ObjectAddress := ⟨1259, 200, 0⟩

/-- Target `b` of the multiple-drop scenario: an AUTO dependent of `a`
that is also named as a direct drop target. -/
def c8B : ObjectAddress := ⟨1259, 201, 0⟩

/-- The one pg_depend row of the scenario: `b` AUTO-depends on `a`. -/
def c8Rows : List PgDependRow := [⟨1, c8B, c8A, .auto⟩]

/-- Starting state of the multiple-drop scenario. -/
def c8St : EngState := ⟨c8Rows, [], [], none, []⟩

/-- The common outcome of every run of the scenario: each object dropped
once (`b` first, by the cascade from `a`), alreadyDeleted = both. -/
def c8Out : EngState :=
  ⟨[], [c8B, c8A], [.heap_drop_with_catalog 201, .heap_drop_with_catalog 200],
    some [c8B, c8A], [.autoCascadesTo c8B]⟩

/-- Every address matches itself. -/
theorem addressMatches_self (a : ObjectAddress) : addressMatches a a = true := by
  simp [addressMatches]

/-- A listed address is reported present. -/
theorem present_of_mem {a : ObjectAddress} {l : List ObjectAddress} (h : a ∈ l) :
    object_address_present a l = true :=
  List.any_eq_true.mpr ⟨a, h, addressMatches_self a⟩

/-- Emitting a message does not touch the alreadyDeleted list. -/
theorem report_already (st : EngState) (r : Report) :
    (report st r).already = st.already := rfl

/-- The alreadyDeleted list, when present, holds no duplicates. -/
def AlreadyNodup (st : EngState) : Prop :=
  ∀ l, st.already = some l → l.Nodup

/-- Step 3 keeps the alreadyDeleted list duplicate-free: the object is
appended only when `object_address_present` does not already report it. -/
theorem doDeletionStep_already {relkind : Nat → RelKind} {st : EngState}
    {object : ObjectAddress} {st' : EngState}
    (h : doDeletionStep relkind st object = .ok st') (hA : AlreadyNodup st) :
    AlreadyNodup st' := by
  unfold doDeletionStep at h
  rcases hdo : doDeletion relkind object with e | p
  · rw [hdo] at h
    cases h
  · rw [hdo] at h
    obtain ⟨reps, acts⟩ := p
    rcases hal : st.already with _ | l
    · simp only [hal] at h
      cases h
      intro l2 hl2
      cases hl2
    · simp only [hal] at h
      split_ifs at h with hpres
      · cases h
        intro l2 hl2
        cases hl2
        exact hA l hal
      · cases h
        intro l2 hl2
        cases hl2
        unfold add_exact_object_address
        rw [List.nodup_append]
        refine ⟨hA l hal, List.nodup_singleton _, ?_⟩
        intro a ha hb
        rw [List.mem_singleton] at hb
        subst hb
        exact absurd (present_of_mem ha) (by simp [hpres])

/-- Duplicate-freeness of the alreadyDeleted list is an invariant of a
recursion procedure. -/
def RecAlready (recurse : EngState → ObjectAddress → Except DropError (Bool × EngState)) :
    Prop :=
  ∀ (st : EngState) (other : ObjectAddress) (k : Bool) (st' : EngState),
    AlreadyNodup st → recurse st other = .ok (k, st') → AlreadyNodup st'

/-- One incoming-scan iteration keeps the alreadyDeleted list
duplicate-free when its recursion does. -/
theorem ddoEdge_already
    {recurse : EngState → ObjectAddress → Except DropError (Bool × EngState)}
    (hP : RecAlready recurse) (st : EngState) (object : ObjectAddress)
    (behavior : DropBehavior) (oktodelete : List ObjectAddress) (ok : Bool)
    (r : PgDependRow) (k : Bool) (st' : EngState) (hA : AlreadyNodup st)
    (h : ddoEdge recurse st object behavior oktodelete ok r = .ok (k, st')) :
    AlreadyNodup st' := by
  unfold ddoEdge at h
  rcases hd : r.deptype with _ | _ | _ | _ <;> rw [hd] at h <;> dsimp only at h
  · set st1 :=
      if object_address_present r.dep oktodelete = true then
        report st (.autoCascadesTo r.dep)
      else if behavior = .restrict then
        report st (.dependsOn r.dep object)
      else
        report st (.cascadesTo r.dep) with hst1
    have hal : st1.already = st.already := by
      rw [hst1]
      split_ifs <;> rfl
    rcases hrec : recurse st1 r.dep with e | q
    · rw [hrec] at h
      cases h
    · rw [hrec] at h
      obtain ⟨k2, st2⟩ := q
      have hst : st' = st2 := by cases h; rfl
      subst hst
      exact hP st1 r.dep k2 st' (fun l hl => hA l (hal ▸ hl)) hrec
  · rcases hrec : recurse (report st (.autoCascadesTo r.dep)) r.dep with e | q
    · rw [hrec] at h
      cases h
    · rw [hrec] at h
      obtain ⟨k2, st2⟩ := q
      have hst : st' = st2 := by cases h; rfl
      subst hst
      exact hP (report st (.autoCascadesTo r.dep)) r.dep k2 st' hA hrec
  · rcases hrec : recurse (report st (.autoCascadesTo r.dep)) r.dep with e | q
    · rw [hrec] at h
      cases h
    · rw [hrec] at h
      obtain ⟨k2, st2⟩ := q
      have hst : st' = st2 := by cases h; rfl
      subst hst
      exact hP (report st (.autoCascadesTo r.dep)) r.dep k2 st' hA hrec
  · cases h

/-- The incoming scan loop keeps the alreadyDeleted list duplicate-free
when its recursion does. -/
theorem ddoLoop_already
    {recurse : EngState → ObjectAddress → Except DropError (Bool × EngState)}
    (hP : RecAlready recurse) (object : ObjectAddress) (behavior : DropBehavior)
    (oktodelete : List ObjectAddress) :
    ∀ (rows : List PgDependRow) (st : EngState) (ok : Bool) (k : Bool)
      (st' : EngState), AlreadyNodup st →
      ddoLoop recurse st rows object behavior oktodelete ok = .ok (k, st') →
      AlreadyNodup st' := by
  intro rows
  induction rows with
  | nil =>
    intro st ok k st' hA h
    have hst : st' = st := by cases h; rfl
    subst hst
    exact hA
  | cons r rest ih =>
    intro st ok k st' hA h
    unfold ddoLoop at h
    split_ifs at h with hlive
    · rcases hedge : ddoEdge recurse st object behavior oktodelete ok r with e | q
      · rw [hedge] at h
        cases h
      · rw [hedge] at h
        obtain ⟨ok1, st1⟩ := q
        exact ih st1 ok1 k st'
          (ddoEdge_already hP st object behavior oktodelete ok r ok1 st1 hA hedge) h
    · exact ih st ok k st' hA h

/-- A successful `recursiveDeletion` keeps the alreadyDeleted list
duplicate-free: every insertion goes through the step-3 presence guard. -/
theorem recursiveDeletion_already :
    ∀ (fuel : Nat) (relkind : Nat → RelKind) (behavior : DropBehavior)
      (msglevel : MsgLevel) (caller : Option ObjectAddress)
      (oktodelete : List ObjectAddress) (st : EngState) (object : ObjectAddress)
      (k : Bool) (st' : EngState), AlreadyNodup st →
      recursiveDeletion fuel relkind st object behavior msglevel caller oktodelete =
        .ok (k, st') →
      AlreadyNodup st' := by
  intro fuel
  induction fuel with
  | zero =>
    intro relkind behavior msglevel caller oktodelete st object k st' _ h
    cases h
  | succ f ihf =>
    intro relkind behavior msglevel caller oktodelete st object k st' hA h
    simp only [recursiveDeletion] at h
    rcases hstep : step1 st.edges object caller with e | s1
    · rw [hstep] at h
      cases h
    · rw [hstep] at h
      dsimp only at h
      have hA1 : AlreadyNodup { st with edges := s1.edges } := hA
      by_cases howned : s1.amOwned = true
      · rw [if_pos howned] at h
        set st2 :=
          if object_address_present s1.owningObject oktodelete = true then
            report { st with edges := s1.edges } (.autoCascadesTo s1.owningObject)
          else if behavior = .restrict then
            report { st with edges := s1.edges } (.dependsOn s1.owningObject object)
          else
            report { st with edges := s1.edges } (.cascadesTo s1.owningObject)
          with hst2
        have hal : st2.already = st.already := by
          rw [hst2]
          split_ifs <;> rfl
        rcases hrec : recursiveDeletion f relkind st2 s1.owningObject behavior
            msglevel (some object) oktodelete with e | q
        · rw [hrec] at h
          cases h
        · rw [hrec] at h
          obtain ⟨k2, st3⟩ := q
          have hst : st' = st3 := by cases h; rfl
          subst hst
          exact ihf relkind behavior msglevel (some object) oktodelete st2
            s1.owningObject k2 st' (fun l hl => hA l (hal ▸ hl)) hrec
      · rw [if_neg howned] at h
        rcases hddo : ddoLoop
            (fun st'' other =>
              recursiveDeletion f relkind st'' other behavior msglevel (some object)
                oktodelete)
            { st with edges := s1.edges } (scanIncoming s1.edges object) object
            behavior oktodelete true with e | q
        · rw [hddo] at h
          cases h
        · rw [hddo] at h
          dsimp only at h
          obtain ⟨ok1, st2⟩ := q
          have hP : RecAlready (fun st'' other =>
              recursiveDeletion f relkind st'' other behavior msglevel (some object)
                oktodelete) :=
            fun st'' other k2 st3 hA2 hr =>
              ihf relkind behavior msglevel (some object) oktodelete st'' other k2 st3
                hA2 hr
          have hA2 : AlreadyNodup st2 :=
            ddoLoop_already hP object behavior oktodelete
              (scanIncoming s1.edges object) { st with edges := s1.edges } true ok1 st2
              hA1 hddo
          rcases hdel : doDeletionStep relkind st2 object with e | st3
          · rw [hdel] at h
            cases h
          · rw [hdel] at h
            have hst : st' = st3 := by cases h; rfl
            subst hst
            exact doDeletionStep_already hdel hA2

/-- The deletion pass of performMultipleDeletions keeps the alreadyDeleted
list duplicate-free. -/
theorem pmdPhase2_already (fuel : Nat) (relkind : Nat → RelKind) :
    ∀ (objects : List ObjectAddress) (st : EngState)
      (implicit : List ObjectAddress) (behavior : DropBehavior)
      (impl1 : List ObjectAddress) (st' : EngState), AlreadyNodup st →
      pmdPhase2 fuel relkind objects st implicit behavior = .ok (impl1, st') →
      AlreadyNodup st' := by
  intro objects
  induction objects with
  | nil =>
    intro st implicit behavior impl1 st' hA h
    have hst : st' = st := by cases h; rfl
    subst hst
    exact hA
  | cons obj rest ih =>
    intro st implicit behavior impl1 st' hA h
    simp only [pmdPhase2] at h
    split_ifs at h with h1 h2
    · exact ih st implicit behavior impl1 st' hA h
    · exact ih st implicit behavior impl1 st' hA h
    · rcases hpd : performDeletionWithList fuel relkind st obj implicit behavior
          with e | q
      · rw [hpd] at h
        cases h
      · rw [hpd] at h
        dsimp only at h
        obtain ⟨impl2, st2⟩ := q
        have hA2 : AlreadyNodup st2 := by
          unfold performDeletionWithList at hpd
          rcases hfa : findAutoDeletableObjects fuel st.edges obj implicit true
              with e | okto1
          · rw [hfa] at hpd
            cases hpd
          · rw [hfa] at hpd
            dsimp only at hpd
            rcases hrec : recursiveDeletion fuel relkind st obj behavior .notice none
                okto1 with e | q2
            · rw [hrec] at hpd
              cases hpd
            · rw [hrec] at hpd
              obtain ⟨ok2, st3⟩ := q2
              dsimp only at hpd
              split_ifs at hpd with hok
              · have hst : st2 = st3 := by cases hpd; rfl
                subst hst
                exact recursiveDeletion_already fuel relkind behavior .notice none
                  okto1 st obj ok2 st2 hA hrec
        exact ih st2 impl2 behavior impl1 st' hA2 h

/-- The target of the double-drop counterexample. -/
def c8X : ObjectAddress := ⟨1259, 500, 0⟩

/-- An AUTO dependent of the target. -/
def c8W : ObjectAddress := ⟨1259, 501, 0⟩

/-- An object owned by the target (INTERNAL) that also AUTO-depends on
the target's AUTO dependent. -/
def c8Z : ObjectAddress := ⟨1259, 502, 0⟩

/-- The acyclic counterexample table: `c8W` AUTO-depends on `c8X`, `c8Z`
AUTO-depends on `c8W` and is owned (INTERNAL) by `c8X`; each object has
at most one INTERNAL out-edge. -/
def c8DblRows : List PgDependRow :=
  [⟨1, c8W, c8X, .auto⟩, ⟨2, c8Z, c8W, .auto⟩, ⟨3, c8Z, c8X, .internal⟩]

/-- Starting state of the double-drop counterexample. -/
def c8DblSt : EngState := ⟨c8DblRows, [], [], none, []⟩

/-- Outcome of the counterexample run: `c8X` is dropped twice (once by
the re-entry through `c8Z`'s ownership redirection while `c8X`'s own
incoming scan is half-processed, and once by that outer scan's own step
3), while the alreadyDeleted list records it only once. -/
def c8DblOut : EngState :=
  ⟨[], [c8Z, c8X, c8W, c8X],
    [.heap_drop_with_catalog 502, .heap_drop_with_catalog 500,
      .heap_drop_with_catalog 501, .heap_drop_with_catalog 500],
    some [c8Z, c8X, c8W],
    [.autoCascadesTo c8Z, .autoCascadesTo c8X, .autoCascadesTo c8Z,
      .autoCascadesTo c8W]⟩

/-- C8 counterexample: `performMultipleDeletions` CAN drop an object
twice.  On a well-formed acyclic table (distinct tuple ids, at most one
INTERNAL out-edge per object), dropping the single target `c8X` under
CASCADE succeeds with `c8X` appearing twice in the deletion log: its
half-processed incoming scan recurses into `c8W`, whose cascade reaches
`c8Z`, whose ownership redirection re-enters `c8X` and deletes it, after
which the outer level's step 3 deletes it again; the alreadyDeleted list
nevertheless records `c8X` only once. -/
theorem performMultipleDeletions_double_drop_counterexample :
    NodupEids c8DblSt.edges ∧
    performMultipleDeletions 10 rkOrdinary c8DblSt [c8X] .cascade = .ok c8DblOut ∧
    c8DblOut.dropLog.count c8X = 2 ∧
    (c8DblOut.already.getD []).count c8X = 1 := by
  refine ⟨?_, by decide⟩
  unfold NodupEids
  decide

/-- C8 (amended): the skip mechanism of `performMultipleDeletions` works
as described even though the no-double-drop conclusion fails: (i) the
deletion pass skips any target present in the alreadyDeleted list or in
the shared implicit set; (ii) the alreadyDeleted list of a successful run
never records an object twice (every insertion passes the step-3 presence
guard); (iii) in the claim's key scenario - an AUTO dependent `b` of
target `a` that is itself a direct target - the first loop accumulates
the shared implicit set {b} with addself = false in either target order,
and for both orders and both behaviors the run deletes `b` exactly once,
by the cascade of `a`. -/
theorem performMultipleDeletions_skip_and_already_nodup :
    (∀ (fuel : Nat) (relkind : Nat → RelKind) (obj : ObjectAddress)
      (rest : List ObjectAddress) (st : EngState) (implicit : List ObjectAddress)
      (behavior : DropBehavior),
      (object_address_present obj (st.already.getD []) = true ∨
        object_address_present obj implicit = true) →
      pmdPhase2 fuel relkind (obj :: rest) st implicit behavior =
        pmdPhase2 fuel relkind rest st implicit behavior) ∧
    (∀ (fuel : Nat) (relkind : Nat → RelKind) (st : EngState)
      (objects : List ObjectAddress) (behavior : DropBehavior) (st' : EngState)
      (l : List ObjectAddress),
      performMultipleDeletions fuel relkind st objects behavior = .ok st' →
      st'.already = some l → l.Nodup) ∧
    ((pmdPhase1 10 c8Rows [c8A, c8B] [] = .ok [c8B] ∧
      pmdPhase1 10 c8Rows [c8B, c8A] [] = .ok [c8B]) ∧
    (performMultipleDeletions 10 rkOrdinary c8St [c8A, c8B] .cascade = .ok c8Out ∧
      performMultipleDeletions 10 rkOrdinary c8St [c8B, c8A] .cascade = .ok c8Out ∧
      performMultipleDeletions 10 rkOrdinary c8St [c8A, c8B] .restrict = .ok c8Out ∧
      performMultipleDeletions 10 rkOrdinary c8St [c8B, c8A] .restrict = .ok c8Out) ∧
    (c8Out.dropLog.count c8B = 1 ∧ c8Out.dropLog.count c8A = 1)) := by
  refine ⟨?_, ?_, by decide⟩
  · intro fuel relkind obj rest st implicit behavior h
    simp only [pmdPhase2]
    rcases h with h | h
    · rw [if_pos h]
    · by_cases h1 : object_address_present obj (st.already.getD []) = true
      · rw [if_pos h1]
      · rw [if_neg h1, if_pos h]
  · intro fuel relkind st objects behavior st' l h hl
    unfold performMultipleDeletions at h
    dsimp only at h
    rcases hp1 : pmdPhase1 fuel st.edges objects [] with e | implicit
    · rw [hp1] at h
      cases h
    · rw [hp1] at h
      dsimp only at h
      rcases hp2 : pmdPhase2 fuel relkind objects { st with already := some [] }
          implicit behavior with e | q
      · rw [hp2] at h
        cases h
      · rw [hp2] at h
        dsimp only at h
        obtain ⟨impl1, st1⟩ := q
        have hst : st' = st1 := by cases h; rfl
        subst hst
        have hA0 : AlreadyNodup { st with already := some [] } := by
          intro l2 hl2
          have hl3 : l2 = [] := by
            have : (some [] : Option (List ObjectAddress)) = some l2 := hl2
            exact (Option.some_inj.mp this).symm
          subst hl3
          exact List.nodup_nil
        exact pmdPhase2_already fuel relkind objects { st with already := some [] }
          implicit behavior impl1 st' hA0 hp2 l hl

theorem performMultipleDeletions_skip_and_already_nodup_witness :
    ((object_address_present c8B (c8Out.already.getD []) = true ∨
        object_address_present c8B ([] : List ObjectAddress) = true) ∧
      pmdPhase2 3 rkOrdinary [c8B] c8Out [] .cascade =
        pmdPhase2 3 rkOrdinary [] c8Out [] .cascade) ∧
    (performMultipleDeletions 10 rkOrdinary c8St [c8A, c8B] .cascade = .ok c8Out ∧
      ([c8B, c8A] : List ObjectAddress).Nodup) :=
  ⟨⟨Or.inl (by decide),
      performMultipleDeletions_skip_and_already_nodup.1 3 rkOrdinary c8B [] c8Out []
        .cascade (Or.inl (by decide))⟩,
    ⟨by decide,
      performMultipleDeletions_skip_and_already_nodup.2.1 10 rkOrdinary c8St
        [c8A, c8B] .cascade c8Out [c8B, c8A] (by decide) rfl⟩⟩
